import Mathlib

/-!
Verification of the PDF-to-Quiz generator's deduplication and topic
normalization core (`quiz_platform/core/deduplication.py`,
`quiz_platform/core/topic_normalization.py`,
`backend/utils/similarity_utils.py`).

The Python code is shallowly embedded: pure helper functions become Lean
functions over `String`, `List` and `ℚ`; the external collaborators
(embedding model, sklearn cosine similarity, sklearn KMeans / silhouette,
the LLM namer) are parameters of the embedded functions, exactly at the
call sites where the Python code invokes them.  Machine floats are
modelled by `ℚ`.
-/

/-! ### Python string primitives used by the code -/

/-- One step of Python `str.split()` (split on runs of whitespace,
dropping empty pieces), over the character list, with an accumulator of
the current word's characters in reverse. -/
def splitWsAux : List Char → List Char → List String
  | [], acc => if acc.isEmpty then [] else [String.mk acc.reverse]
  | c :: cs, acc =>
      if c.isWhitespace then
        (if acc.isEmpty then splitWsAux cs [] else String.mk acc.reverse :: splitWsAux cs [])
      else splitWsAux cs (c :: acc)

/-- Python `s.split()` with no separator argument. -/
def pySplit (s : String) : List String := splitWsAux s.data []

/-- Python `s.lower()` (ASCII case folding, which is all the code relies on). -/
def pyLower (s : String) : String := String.mk (s.data.map Char.toLower)

/-- Python `s.strip()`: drop leading and trailing whitespace. -/
def pyStrip (s : String) : String :=
  String.mk ((s.data.dropWhile Char.isWhitespace).reverse.dropWhile Char.isWhitespace).reverse

/-- Python `set(s.split())`: the distinct words of a split, keeping first
occurrences (list-as-set; only membership and cardinality are used). -/
def wordSet (s : String) : List String := (pySplit s).dedup

/-! ### The question record

A question dictionary, restricted to the keys the deduplication /
normalization core reads.  `dict.get(key, default)` with a missing key is
modelled by the field holding the default (`""` for the text-valued keys,
`0.5` for the two score keys), which yields the same control flow in every
embedded function. -/

structure Question where
  question_id : String
  question_text : String
  question_type : String
  answer : String
  subtopic : String
  normalized_topic : String
  validation_score : ℚ
  confidence_score : ℚ
deriving DecidableEq, Repr, Inhabited

/-! ### similarity_utils: Jaccard similarity

`SimilarityUtils.calculate_jaccard_similarity` (backend/utils/similarity_utils.py,
lines 57-81): lowercase word sets; `0.0` when either is empty, else
`|intersection| / |union|`.  `calculate_similarity` (TF-IDF cosine,
lines 352-355) calls into sklearn's TfidfVectorizer and is therefore kept
as a parameter `ansSim` wherever the Python code calls it. -/

def jaccardSimilarity (text1 text2 : String) : ℚ :=
  let words1 := wordSet (pyLower text1)
  let words2 := wordSet (pyLower text2)
  if words1.isEmpty ∨ words2.isEmpty then 0
  else
    let inter := (words1.filter (fun w => w ∈ words2)).length
    let union := (words1 ++ words2.filter (fun w => w ∉ words1)).length
    if union > 0 then (inter : ℚ) / (union : ℚ) else 0

/-! ### Deduplicator (quiz_platform/core/deduplication.py) -/

/-- The ten stop words removed in `_check_same_concept` (line 179). -/
def commonWordsConcept : List String :=
  ["the", "and", "is", "in", "to", "of", "a", "that", "it", "with"]

/-- `Deduplicator._check_same_concept` (lines 151-188): same non-empty
subtopic (lowercased), or same non-empty normalized topic, or at least two
distinct significant keywords in common. -/
def checkSameConcept (q1 q2 : Question) : Bool :=
  let subtopic1 := pyLower q1.subtopic
  let subtopic2 := pyLower q2.subtopic
  if subtopic1 ≠ "" ∧ subtopic2 ≠ "" ∧ subtopic1 = subtopic2 then true
  else
    let topic1 := pyLower q1.normalized_topic
    let topic2 := pyLower q2.normalized_topic
    if topic1 ≠ "" ∧ topic2 ≠ "" ∧ topic1 = topic2 then true
    else
      let keywords1 := (wordSet (pyLower q1.question_text)).filter (fun w => w ∉ commonWordsConcept)
      let keywords2 := (wordSet (pyLower q2.question_text)).filter (fun w => w ∉ commonWordsConcept)
      let overlap := keywords1.filter (fun w => w ∈ keywords2)
      decide (overlap.length ≥ 2)

/-- `Deduplicator._are_questions_duplicate` (lines 112-149).  `ansSim` is
`calculate_similarity` (TF-IDF cosine, an sklearn collaborator);
`threshold` is `self.similarity_threshold`; `embSim` is the
precomputed embedding cosine similarity of the pair. -/
def areQuestionsDuplicate (ansSim : String → String → ℚ) (threshold : ℚ)
    (q1 q2 : Question) (embSim : ℚ) : Bool :=
  if q1.question_type ≠ q2.question_type then false
  else if embSim < threshold then false
  else if jaccardSimilarity q1.question_text q2.question_text < 3/10 then false
  else if q1.answer ≠ "" ∧ q2.answer ≠ "" ∧ ansSim q1.answer q2.answer < 1/2 then false
  else if ¬ (checkSameConcept q1 q2) then false
  else true

/-- One outer iteration of `Deduplicator._find_duplicates` (lines 80-108)
at index `i`.  The state is `(processed, pairs)`: the set of indices
already marked duplicate, and the `(representative, duplicate)` index
pairs recorded so far.  The Python inner loop collects every later
unprocessed index `j` that passes `_are_questions_duplicate`, marks it
processed, and records it as a duplicate of `i`. -/
def findDupStep (qs : List Question) (simM : ℕ → ℕ → ℚ)
    (ansSim : String → String → ℚ) (threshold : ℚ)
    (st : List ℕ × List (ℕ × ℕ)) (i : ℕ) : List ℕ × List (ℕ × ℕ) :=
  if i ∈ st.1 then st
  else
    let js := (List.range qs.length).filter
      (fun j => i < j ∧ j ∉ st.1 ∧
        areQuestionsDuplicate ansSim threshold (qs.getD i default) (qs.getD j default)
          (simM i j))
    (st.1 ++ js, st.2 ++ js.map (fun j => (i, j)))

/-- `Deduplicator._find_duplicates` (lines 68-110), reduced to the
`(representative index, duplicate index)` pairs it records; `simM` is the
cosine similarity matrix of the question embeddings. -/
def findDupPairs (qs : List Question) (simM : ℕ → ℕ → ℚ)
    (ansSim : String → String → ℚ) (threshold : ℚ) : List (ℕ × ℕ) :=
  ((List.range qs.length).foldl (findDupStep qs simM ansSim threshold) ([], [])).2

/-- One entry of the `duplicates` list built at lines 103-108. -/
structure DupEntry where
  question : Question
  duplicate_of : String
  similarity_score : ℚ
  duplicate_reason : String
deriving DecidableEq, Repr

/-- The `duplicates` list of `_find_duplicates`: one record per recorded
pair, holding the duplicate question, the representative's id, and the
pair's similarity score. -/
def dupEntries (qs : List Question) (simM : ℕ → ℕ → ℚ)
    (ansSim : String → String → ℚ) (threshold : ℚ) : List DupEntry :=
  (findDupPairs qs simM ansSim threshold).map
    (fun p => ⟨qs.getD p.2 default, (qs.getD p.1 default).question_id, simM p.1 p.2,
               "semantic_similarity"⟩)

/-- `Deduplicator._get_unique_questions` (lines 190-198): keep the
questions whose id is not the id of any recorded duplicate. -/
def getUniqueQuestions (qs : List Question) (dups : List DupEntry) : List Question :=
  let duplicateIds := dups.map (fun d => d.question.question_id)
  qs.filter (fun q => q.question_id ∉ duplicateIds)

/-! ### Deduplication statistics (lines 200-255) -/

/-- A value of the statistics dictionary: a number, a string, or a nested
string-keyed counter. -/
inductive StatVal where
  | num (q : ℚ)
  | strv (s : String)
  | dictS (d : List (String × ℚ))
deriving DecidableEq, Repr

/-- One increment of a Python `Counter` / `defaultdict(int)`, keeping the
insertion order of first occurrences. -/
def counterAdd (c : List (String × ℚ)) (k : String) : List (String × ℚ) :=
  if c.any (fun p => p.1 = k) then
    c.map (fun p => if p.1 = k then (p.1, p.2 + 1) else p)
  else c ++ [(k, 1)]

/-- Python `Counter(ks)`. -/
def counterOf (ks : List String) : List (String × ℚ) := ks.foldl counterAdd []

/-- `q.get("normalized_topic", "General")`: the key is missing (modelled by
`""`, the value the pipeline itself never stores there) exactly when the
default applies. -/
def topicOrGeneral (q : Question) : String :=
  if q.normalized_topic = "" then "General" else q.normalized_topic

/-- `np.mean`, as used on the non-empty rational lists of the stats code. -/
def listMean (l : List ℚ) : ℚ := l.sum / l.length

/-- `Deduplicator._calculate_topic_preservation` (lines 239-255). -/
def calculateTopicPreservation (originalTopics uniqueTopics : List (String × ℚ)) : ℚ :=
  if originalTopics.isEmpty then 0
  else
    let preservationScores := (originalTopics.filter (fun p => p.2 > 0)).map
      (fun p => (((uniqueTopics.lookup p.1).getD 0)) / p.2)
    if preservationScores.isEmpty then 0 else listMean preservationScores

/-- `Deduplicator._calculate_deduplication_stats` (lines 200-237): the
statistics dictionary, with its exact keys in insertion order. -/
def calcDedupStats (originalQuestions uniqueQuestions : List Question)
    (dups : List DupEntry) : List (String × StatVal) :=
  let totalOriginal := originalQuestions.length
  let totalUnique := uniqueQuestions.length
  let totalDuplicates := dups.length
  let similarityScores := dups.map (fun d => d.similarity_score)
  let duplicateReasons := counterOf (dups.map (fun d => d.duplicate_reason))
  let originalTopics := counterOf (originalQuestions.map topicOrGeneral)
  let uniqueTopics := counterOf (uniqueQuestions.map topicOrGeneral)
  [("total_original_questions", .num totalOriginal),
   ("total_unique_questions", .num totalUnique),
   ("total_duplicates_removed", .num totalDuplicates),
   ("deduplication_rate",
     .num (if totalOriginal > 0 then (totalDuplicates : ℚ) / totalOriginal else 0)),
   ("average_similarity_score",
     .num (if similarityScores.isEmpty then 0 else listMean similarityScores)),
   ("duplicate_reasons", .dictS duplicateReasons),
   ("topic_distribution_original", .dictS originalTopics),
   ("topic_distribution_unique", .dictS uniqueTopics),
   ("topic_preservation_rate", .num (calculateTopicPreservation originalTopics uniqueTopics))]

/-- `Deduplicator._add_deduplication_metadata` (lines 257-275): each kept
question gains a `duplicate_count` (how many recorded duplicates name it
as representative) and `is_unique_after_dedup = True`.  The added keys are
modelled as an attached pair, next to the unchanged question record. -/
def addDedupMetadata (qs : List Question) (dups : List DupEntry) :
    List (Question × ℕ × Bool) :=
  qs.map (fun q =>
    (q, (dups.filter (fun d => d.duplicate_of = q.question_id)).length, true))

/-- `Deduplicator._generate_embeddings` (lines 58-66): on success the
batch embeddings, on any exception a zero matrix of shape
`len(texts) × 384`.  `embedF` is the external embedding collaborator. -/
def generateEmbeddings (embedF : List String → Except String (List (List ℚ)))
    (texts : List String) : List (List ℚ) :=
  match embedF texts with
  | .ok e => e
  | .error _ => List.replicate texts.length (List.replicate 384 0)

/-- `Deduplicator.deduplicate_questions` (lines 22-56).  `embedF` is the
embedding collaborator, `cosF` sklearn's cosine similarity on embedding
rows, `ansSim` the TF-IDF answer similarity, `threshold` the duplicate
threshold.  Returns `(unique questions, metadata overlay, duplicates,
statistics)`; the `≤ 1` shortcut returns the input without metadata, which
is modelled by an empty overlay. -/
def deduplicateQuestions (embedF : List String → Except String (List (List ℚ)))
    (cosF : List ℚ → List ℚ → ℚ) (ansSim : String → String → ℚ) (threshold : ℚ)
    (qs : List Question) :
    List Question × List (Question × ℕ × Bool) × List DupEntry × List (String × StatVal) :=
  if qs.length ≤ 1 then
    (qs, [], [],
     [("total_questions", .num qs.length), ("duplicates_removed", .num 0)])
  else
    let texts := qs.map (fun q => q.question_text)
    let embs := generateEmbeddings embedF texts
    let simM := fun i j => cosF (embs.getD i []) (embs.getD j [])
    let dups := dupEntries qs simM ansSim threshold
    let unique := getUniqueQuestions qs dups
    let stats := calcDedupStats qs unique dups
    (unique, addDedupMetadata unique dups, dups, stats)

/-- The similarity matrix of a deterministic embedding collaborator: entry
`(i, j)` depends only on the two question texts (cosine of their
embeddings), written as a text-level similarity `simT`. -/
def textSimM (qs : List Question) (simT : String → String → ℚ) : ℕ → ℕ → ℚ :=
  fun i j => simT (qs.getD i default).question_text (qs.getD j default).question_text

/-- `_find_duplicates` under a deterministic embedding collaborator. -/
def findDupPairsT (qs : List Question) (simT : String → String → ℚ)
    (ansSim : String → String → ℚ) (threshold : ℚ) : List (ℕ × ℕ) :=
  findDupPairs qs (textSimM qs simT) ansSim threshold

/-- The `unique_questions` output of one `deduplicate_questions` run under
a deterministic embedding collaborator (the `len ≤ 1` shortcut returns the
input unchanged, which coincides with this expression there). -/
def dedupCore (simT : String → String → ℚ) (ansSim : String → String → ℚ)
    (threshold : ℚ) (qs : List Question) : List Question :=
  getUniqueQuestions qs
    ((findDupPairsT qs simT ansSim threshold).map
      (fun p => ⟨qs.getD p.2 default, (qs.getD p.1 default).question_id,
                 textSimM qs simT p.1 p.2, "semantic_similarity"⟩))

/-! ### TopicNormalizer (quiz_platform/core/topic_normalization.py) -/

/-- Python `' '.join(s.split())` (line 407): collapse internal whitespace. -/
def normalizeWhitespace (s : String) : String := String.intercalate " " (pySplit s)

/-- One iteration of `TopicNormalizer._clean_subtopics` (lines 401-416):
strip and collapse whitespace, keep strings of length 2..100 not yet seen
case-insensitively.  The state is `(seen lowercased, cleaned)`. -/
def cleanStep (acc : List String × List String) (raw : String) :
    List String × List String :=
  let st := normalizeWhitespace (pyStrip raw)
  if st ≠ "" ∧ 2 ≤ st.length ∧ st.length ≤ 100 ∧ pyLower st ∉ acc.1 then
    (acc.1 ++ [pyLower st], acc.2 ++ [st])
  else acc

/-- `TopicNormalizer._clean_subtopics` (lines 396-418). -/
def cleanSubtopics (subtopics : List String) : List String :=
  (subtopics.foldl cleanStep ([], [])).2

/-- One normalized topic record, restricted to the keys the code writes.
`cluster_id` is absent from the simple-normalization records, hence
`Option`; `statistics` is the per-cluster stats dictionary. -/
structure NormalizedTopic where
  topic_id : String
  topic_name : String
  subtopics : List String
  subtopic_count : ℕ
  representative_subtopic : String
  cluster_id : Option ℕ
  statistics : List (String × ℚ)
deriving DecidableEq, Repr, Inhabited

/-- Python `f"{n:03d}"`. -/
def pad3 (n : ℕ) : String :=
  if n < 10 then "00" ++ Nat.repr n else if n < 100 then "0" ++ Nat.repr n else Nat.repr n

/-- The result dictionary of `normalize_topics`; the two `*_method` keys
are only present on the clustering path, hence `Option`. -/
structure NormalizationResult where
  normalized_topics : List NormalizedTopic
  topic_mapping : List (String × String)
  original_subtopics : List String
  statistics : List (String × StatVal)
  clustering_method : Option String
  normalization_method : Option String
deriving DecidableEq, Repr

/-- `TopicNormalizer._create_empty_normalization` (lines 420-432). -/
def createEmptyNormalization : NormalizationResult :=
  ⟨[], [], [],
   [("total_original_subtopics", .num 0), ("total_normalized_topics", .num 0),
    ("coverage_percentage", .num 0), ("normalization_quality", .strv "No Data")],
   none, none⟩

/-- `TopicNormalizer._create_simple_normalization` (lines 434-467): one
singleton topic per subtopic, identity mapping. -/
def createSimpleNormalization (subtopics : List String) : NormalizationResult :=
  let normalizedTopics := subtopics.enum.map (fun p =>
    ({ topic_id := "topic_" ++ pad3 (p.1 + 1)
       topic_name := p.2
       subtopics := [p.2]
       subtopic_count := 1
       representative_subtopic := p.2
       cluster_id := none
       statistics :=
         [("subtopic_count", 1), ("average_word_count", ((pySplit p.2).length : ℚ)),
          ("cohesion_score", 1)] } : NormalizedTopic))
  ⟨normalizedTopics, subtopics.map (fun st => (st, st)), subtopics,
   [("total_original_subtopics", .num subtopics.length),
    ("total_normalized_topics", .num subtopics.length),
    ("coverage_percentage", .num 100),
    ("average_subtopics_per_topic", .num 1),
    ("normalization_quality", .strv "Perfect (1:1 mapping)")],
   none, none⟩

/-- `TopicNormalizer._determine_optimal_clusters` (lines 90-128).
`scoreF k` is the silhouette score sklearn reports for the `k`-cluster
KMeans partition of the embeddings.  Scan `k` ascending over
`[min_clusters, max_clusters]`, keeping the first `k` whose score
strictly beats the best so far (initially `-1`, with `best_k`
initialized to the target count). -/
def determineOptimalClusters (scoreF : ℕ → ℚ) (targetCount n : ℕ) : ℕ :=
  let maxClusters := min (targetCount * 2) (n - 1)
  let minClusters := min 3 n
  if maxClusters ≤ minClusters then minClusters
  else
    (((List.range' minClusters (maxClusters + 1 - minClusters)).foldl
      (fun (best : ℚ × ℕ) k =>
        let score := if k > 1 then scoreF k else 0
        if score > best.1 then (score, k) else best)
      (-1, targetCount))).2

/-- One `clusters[label].append(subtopic)` of `_cluster_subtopics`
(line 143): append the subtopic to its label's cluster, creating the
cluster at first sight of the label (Python `defaultdict(list)` keeps
insertion order). -/
def clusterStep (acc : List (ℕ × List String)) (p : String × ℕ) :
    List (ℕ × List String) :=
  if acc.any (fun c => c.1 = p.2) then
    acc.map (fun c => if c.1 = p.2 then (c.1, c.2 ++ [p.1]) else c)
  else acc ++ [(p.2, [p.1])]

/-- `TopicNormalizer._cluster_subtopics` (lines 130-145): zip the
subtopics with their KMeans labels and group them by label. -/
def clustersOf (subtopics : List String) (labels : List ℕ) : List (ℕ × List String) :=
  (subtopics.zip labels).foldl clusterStep []

/-- `TopicNormalizer._calculate_cluster_stats` (lines 270-285);
`cohesionF` is `_calculate_cluster_cohesion`, which calls the embedding
collaborator. -/
def calculateClusterStats (cohesionF : List String → ℚ) (clusterSubtopics : List String) :
    List (String × ℚ) :=
  let wordCounts := clusterSubtopics.map (fun st => ((pySplit st).length : ℚ))
  let avgWords := if wordCounts.isEmpty then 0 else listMean wordCounts
  let charCounts := clusterSubtopics.map (fun st => (st.length : ℚ))
  [("subtopic_count", (clusterSubtopics.length : ℚ)),
   ("average_word_count", avgWords),
   ("min_length", if charCounts.isEmpty then 0 else charCounts.foldr min (charCounts.getD 0 0)),
   ("max_length", if charCounts.isEmpty then 0 else charCounts.foldr max (charCounts.getD 0 0)),
   ("cohesion_score", cohesionF clusterSubtopics)]

/-- Stable insertion (descending) of a topic into a list sorted by
`subtopic_count` descending: a later element goes after every
strictly-greater element and after all equal ones it follows. -/
def insertTopicDesc (x : NormalizedTopic) : List NormalizedTopic → List NormalizedTopic
  | [] => [x]
  | y :: ys => if x.subtopic_count < y.subtopic_count then y :: insertTopicDesc x ys
               else x :: y :: ys

/-- The stable descending sort by `subtopic_count` performed at line 184
(Python list sort with `reverse=True` is stable). -/
def sortTopicsDesc : List NormalizedTopic → List NormalizedTopic
  | [] => []
  | x :: xs => insertTopicDesc x (sortTopicsDesc xs)

/-- `TopicNormalizer._create_normalized_topics` (lines 147-186).  `nameF`
is `_generate_topic_name` (LLM with frequency fallback), `repF` is
`_find_representative_subtopic` (embedding collaborator; its unused
`all_subtopics` argument is dropped), `cohesionF` the cohesion
collaborator.  Empty clusters are skipped, topics sorted by size. -/
def createNormalizedTopics (nameF : List String → String) (repF : List String → String)
    (cohesionF : List String → ℚ) (clusters : List (ℕ × List String)) :
    List NormalizedTopic :=
  sortTopicsDesc ((clusters.filter (fun c => ¬ c.2.isEmpty)).map (fun c =>
    ({ topic_id := "topic_" ++ pad3 (c.1 + 1)
       topic_name := nameF c.2
       subtopics := c.2
       subtopic_count := c.2.length
       representative_subtopic := repF c.2
       cluster_id := some c.1
       statistics := calculateClusterStats cohesionF c.2 } : NormalizedTopic)))

/-- Python dict assignment `m[k] = v`: update in place if present, else
append. -/
def dictInsert (m : List (String × String)) (k v : String) : List (String × String) :=
  if m.any (fun p => p.1 = k) then m.map (fun p => if p.1 = k then (p.1, v) else p)
  else m ++ [(k, v)]

/-- `TopicNormalizer._create_topic_mapping` (lines 315-327): flatten
cluster membership into a subtopic → topic-name dictionary. -/
def createTopicMapping (topics : List NormalizedTopic) : List (String × String) :=
  topics.foldl (fun m t => t.subtopics.foldl (fun m' st => dictInsert m' st t.topic_name) m) []

/-- `TopicNormalizer._calculate_normalization_stats` (lines 329-376);
`stdF` is `np.std`. -/
def calcNormalizationStats (stdF : List ℚ → ℚ) (topics : List NormalizedTopic)
    (originalSubtopics : List String) : List (String × StatVal) :=
  let totalSubtopics := originalSubtopics.length
  let totalTopics := topics.length
  let mappedSubtopics := (topics.flatMap (fun t => t.subtopics)).dedup
  let coverage := if totalSubtopics > 0 then (mappedSubtopics.length : ℚ) / totalSubtopics else 0
  let subtopicCounts := topics.map (fun t => (t.subtopic_count : ℚ))
  let avgPerTopic := if subtopicCounts.isEmpty then 0 else subtopicCounts.sum / totalTopics
  let stdPerTopic := if subtopicCounts.isEmpty then 0 else stdF subtopicCounts
  let balance := if avgPerTopic > 0 then 1 / (1 + stdPerTopic / avgPerTopic) else 0
  let cohesionScores := topics.map (fun t => (t.statistics.lookup "cohesion_score").getD 0)
  let avgCohesion := if cohesionScores.isEmpty then 0 else cohesionScores.sum / totalTopics
  let quality := coverage * (2/5) + balance * (3/10) + avgCohesion * (3/10)
  [("total_original_subtopics", .num totalSubtopics),
   ("total_normalized_topics", .num totalTopics),
   ("coverage_percentage", .num (coverage * 100)),
   ("average_subtopics_per_topic", .num avgPerTopic),
   ("subtopic_distribution_std", .num stdPerTopic),
   ("balance_score", .num balance),
   ("average_cohesion_score", .num avgCohesion),
   ("normalization_quality",
     .strv (if quality ≥ 4/5 then "Excellent" else if quality ≥ 7/10 then "Good"
            else if quality ≥ 3/5 then "Fair" else "Needs Improvement"))]

/-- The external collaborators of the embedding-clustering path of
`normalize_topics`: sklearn silhouette scores, KMeans labels for the
chosen `k`, the LLM topic namer, the representative picker, the cohesion
score, and `np.std`. -/
structure NormCollab where
  scoreF : ℕ → ℚ
  labelsF : ℕ → List ℕ
  nameF : List String → String
  repF : List String → String
  cohesionF : List String → ℚ
  stdF : List ℚ → ℚ

/-- `TopicNormalizer.normalize_topics` (lines 22-88), embedding path: the
empty shortcut, the `≤ target_count` simple path, and otherwise the
cluster pipeline (the `except` branch that degrades to the LLM fallback
is outside every claim and not modelled). -/
def normalizeTopics (C : NormCollab) (targetCount : ℕ) (subtopics : List String) :
    NormalizationResult :=
  if subtopics.isEmpty then createEmptyNormalization
  else
    let cleaned := cleanSubtopics subtopics
    if cleaned.length ≤ targetCount then createSimpleNormalization cleaned
    else
      let k := determineOptimalClusters C.scoreF targetCount cleaned.length
      let clusters := clustersOf cleaned (C.labelsF k)
      let topics := createNormalizedTopics C.nameF C.repF C.cohesionF clusters
      let mapping := createTopicMapping topics
      let stats := calcNormalizationStats C.stdF topics cleaned
      ⟨topics, mapping, cleaned, stats, some "kmeans", some "embedding_clustering"⟩

/-! ### Topic Mapper (lines 530-595) -/

/-- `np.argmax` over a similarity row: index of the first maximal value
(`i` is the index of the head of the remaining list, `bi`/`bv` the best
index and value so far; only a strictly greater value updates). -/
def argmaxAux : List ℚ → ℕ → ℕ → ℚ → ℕ
  | [], _, bi, _ => bi
  | x :: xs, i, bi, bv => if x > bv then argmaxAux xs (i + 1) i x else argmaxAux xs (i + 1) bi bv

/-- `np.argmax` (first index attaining the maximum; `0` on `[]`). -/
def argmaxIdx : List ℚ → ℕ
  | [] => 0
  | x :: xs => argmaxAux xs 1 0 x

/-- `TopicNormalizer._find_similar_topic` (lines 566-595).  `simT` is the
cosine similarity of the embedding collaborator on two texts.  Python
indexes the dict by `mapped_subtopics[max_idx]`; since dict keys are
unique this is the pair at `max_idx`. -/
def findSimilarTopic (simT : String → String → ℚ) (subtopic : String)
    (mapping : List (String × String)) : String :=
  if subtopic = "" ∨ mapping.isEmpty then "General"
  else
    let mappedSubtopics := mapping.map Prod.fst
    let sims := mappedSubtopics.map (fun k => simT subtopic k)
    let maxIdx := argmaxIdx sims
    if sims.getD maxIdx 0 > 3/5 then (mapping.getD maxIdx ("", "")).2 else "General"

/-- The per-question topic assignment of
`TopicNormalizer.map_questions_to_normalized_topics` (lines 547-555):
exact dictionary lookup, then the similarity search when the lookup came
back falsy and the subtopic is truthy, then the `or "General"` default. -/
def mapSubtopic (simT : String → String → ℚ) (mapping : List (String × String))
    (subtopic : String) : String :=
  let normalizedTopic := (mapping.lookup subtopic).getD ""
  let nt := if normalizedTopic = "" ∧ subtopic ≠ "" then findSimilarTopic simT subtopic mapping
            else normalizedTopic
  if nt = "" then "General" else nt

/-- `TopicNormalizer.map_questions_to_normalized_topics` (lines 530-564):
set each question's `normalized_topic` from its subtopic. -/
def mapQuestionsToNormalizedTopics (simT : String → String → ℚ) (questions : List Question)
    (mapping : List (String × String)) : List Question :=
  questions.map (fun q => { q with normalized_topic := mapSubtopic simT mapping q.subtopic })

/-! ### Diversity selection (deduplication.py lines 379-452) -/

/-- `Deduplicator._calculate_question_score` (lines 427-452): weighted
validation and confidence scores, a word-count sweet-spot bonus, a
`short_answer` bonus, clipped at `1.0`. -/
def calculateQuestionScore (q : Question) : ℚ :=
  let base := q.validation_score * (2/5) + q.confidence_score * (3/10)
  let wc := (pySplit q.question_text).length
  let lengthBonus : ℚ :=
    if 10 ≤ wc ∧ wc ≤ 25 then 1/5
    else if (5 ≤ wc ∧ wc < 10) ∨ (25 < wc ∧ wc ≤ 40) then 1/10
    else 0
  let typeBonus : ℚ := if q.question_type = "short_answer" then 1/10 else 0
  min 1 (base + lengthBonus + typeBonus)

/-- Stable insertion (descending by score) of a scored question: it goes
after every strictly higher-scored element and before equal ones it
precedes in the input. -/
def insertByScoreDesc (x : ℚ × Question) : List (ℚ × Question) → List (ℚ × Question)
  | [] => [x]
  | y :: ys => if x.1 < y.1 then y :: insertByScoreDesc x ys else x :: y :: ys

/-- The stable descending sort of line 395 (Python list sort with a key
and `reverse=True` is stable). -/
def sortByScoreDesc : List (ℚ × Question) → List (ℚ × Question)
  | [] => []
  | x :: xs => insertByScoreDesc x (sortByScoreDesc xs)

/-- The greedy diversity pass of `_select_diverse_questions`
(lines 398-418): walk the scored list, stop once `max_count` are selected,
and accept a question only when its embedding similarity to every already
selected question is at most `0.7`.  `simT` is the cosine similarity of
the embedding collaborator on two texts. -/
def greedyDiverse (simT : String → String → ℚ) (maxCount : ℕ) :
    List (ℚ × Question) → List Question → List Question
  | [], selected => selected
  | (_, q) :: rest, selected =>
      if maxCount ≤ selected.length then selected
      else if selected.all (fun p => ¬ (simT q.question_text p.question_text > 7/10)) then
        greedyDiverse simT maxCount rest (selected ++ [q])
      else greedyDiverse simT maxCount rest selected

/-- `Deduplicator._select_diverse_questions` (lines 379-425): return small
groups whole; otherwise score, sort descending, run the greedy diversity
pass, and fill any shortfall with the highest-scoring questions not yet
selected (Python `q not in selected` is dictionary value equality). -/
def selectDiverseQuestions (simT : String → String → ℚ) (qs : List Question)
    (maxCount : ℕ) : List Question :=
  if qs.length ≤ maxCount then qs
  else
    let sorted := sortByScoreDesc (qs.map (fun q => (calculateQuestionScore q, q)))
    let selected := greedyDiverse simT maxCount sorted []
    if selected.length < maxCount then
      selected ++ ((sorted.map Prod.snd).filter (fun q => q ∉ selected)).take
        (maxCount - selected.length)
    else selected

/-! ## Claim theorems -/

/-- C2: for every list of cleaned subtopics whose length is at most
`target_count`, `normalize_topics` skips clustering and returns exactly
`len(subtopics)` normalized topics, each with exactly that one subtopic as
its sole member and `cohesion_score == 1.0`, and a topic mapping sending
each subtopic to itself. -/
theorem normalize_topics_singleton (C : NormCollab) (targetCount : ℕ)
    (subtopics : List String)
    (hclean : cleanSubtopics subtopics = subtopics)
    (hle : subtopics.length ≤ targetCount) :
    (normalizeTopics C targetCount subtopics).normalized_topics.length = subtopics.length ∧
    (∀ i, i < subtopics.length →
      ((normalizeTopics C targetCount subtopics).normalized_topics.getD i default).subtopics
          = [subtopics.getD i ""] ∧
      ((normalizeTopics C targetCount subtopics).normalized_topics.getD i default).topic_name
          = subtopics.getD i "" ∧
      ((normalizeTopics C targetCount subtopics).normalized_topics.getD i
          default).subtopic_count = 1 ∧
      ((normalizeTopics C targetCount subtopics).normalized_topics.getD i
          default).statistics.lookup "cohesion_score" = some 1) ∧
    (normalizeTopics C targetCount subtopics).topic_mapping
        = subtopics.map (fun st => (st, st)) := by
  by_cases hemp : subtopics = []
  · subst hemp
    simp [normalizeTopics, createEmptyNormalization]
  · have hne : subtopics.isEmpty = false := by
      simpa [List.isEmpty_iff] using hemp
    have hres : normalizeTopics C targetCount subtopics = createSimpleNormalization subtopics := by
      simp only [normalizeTopics, hne, Bool.false_eq_true, if_false, hclean]
      rw [if_pos hle]
    rw [hres]
    refine ⟨by simp [createSimpleNormalization], ?_, by simp [createSimpleNormalization]⟩
    intro i hi
    have hlen : (createSimpleNormalization subtopics).normalized_topics.length
        = subtopics.length := by
      simp [createSimpleNormalization]
    have hig : i < (createSimpleNormalization subtopics).normalized_topics.length := by
      rw [hlen]; exact hi
    have hget : (createSimpleNormalization subtopics).normalized_topics.getD i default
        = (createSimpleNormalization subtopics).normalized_topics[i] :=
      List.getD_eq_getElem _ _ hig
    have henum : i < subtopics.enum.length := by simpa using hi
    have hgete : (createSimpleNormalization subtopics).normalized_topics[i]
        = ({ topic_id := "topic_" ++ pad3 ((subtopics.enum[i]).1 + 1)
             topic_name := (subtopics.enum[i]).2
             subtopics := [(subtopics.enum[i]).2]
             subtopic_count := 1
             representative_subtopic := (subtopics.enum[i]).2
             cluster_id := none
             statistics :=
               [("subtopic_count", 1),
                ("average_word_count", ((pySplit (subtopics.enum[i]).2).length : ℚ)),
                ("cohesion_score", 1)] } : NormalizedTopic) := by
      simp [createSimpleNormalization]
    have hpair : subtopics.enum[i] = (i, subtopics[i]) := by
      simp [List.getElem_enum]
    rw [hget, hgete, hpair]
    have hsub : subtopics.getD i "" = subtopics[i] := List.getD_eq_getElem _ _ hi
    rw [hsub]
    exact ⟨rfl, rfl, rfl, rfl⟩

/-- A collaborator bundle of inert stubs, for instantiating theorems whose
conclusion does not depend on the collaborators. -/
def trivialCollab : NormCollab :=
  ⟨fun _ => 0, fun _ => [], fun _ => "", fun _ => "", fun _ => 0, fun _ => 0⟩

/-- Witness for `normalize_topics_singleton` at a concrete two-subtopic
input below the target count. -/
theorem normalize_topics_singleton_witness :
    cleanSubtopics ["Algebra", "Calculus"] = ["Algebra", "Calculus"] ∧
    (["Algebra", "Calculus"] : List String).length ≤ 5 ∧
    ((normalizeTopics trivialCollab 5 ["Algebra", "Calculus"]).normalized_topics.length
        = (["Algebra", "Calculus"] : List String).length ∧
     (∀ i, i < (["Algebra", "Calculus"] : List String).length →
       ((normalizeTopics trivialCollab 5 ["Algebra", "Calculus"]).normalized_topics.getD i
            default).subtopics = [(["Algebra", "Calculus"] : List String).getD i ""] ∧
       ((normalizeTopics trivialCollab 5 ["Algebra", "Calculus"]).normalized_topics.getD i
            default).topic_name = (["Algebra", "Calculus"] : List String).getD i "" ∧
       ((normalizeTopics trivialCollab 5 ["Algebra", "Calculus"]).normalized_topics.getD i
            default).subtopic_count = 1 ∧
       ((normalizeTopics trivialCollab 5 ["Algebra", "Calculus"]).normalized_topics.getD i
            default).statistics.lookup "cohesion_score" = some 1) ∧
     (normalizeTopics trivialCollab 5 ["Algebra", "Calculus"]).topic_mapping
        = (["Algebra", "Calculus"] : List String).map (fun st => (st, st))) :=
  ⟨by decide, by decide,
   normalize_topics_singleton trivialCollab 5 ["Algebra", "Calculus"] (by decide) (by decide)⟩

/-- C7 (amended): for a pair with equal question types, embedding
similarity at or above the threshold, question-text Jaccard at least
`0.3`, both answers non-empty, and the same-concept check passing, the
pair is marked duplicate exactly when the answer similarity is at least
`0.5` (the code's answer cutoff, deduplication.py line 141). -/
theorem are_questions_duplicate_answer_threshold
    (ansSim : String → String → ℚ) (threshold : ℚ) (q1 q2 : Question) (embSim : ℚ)
    (htype : q1.question_type = q2.question_type)
    (hemb : embSim ≥ threshold)
    (hjac : jaccardSimilarity q1.question_text q2.question_text ≥ 3/10)
    (ha1 : q1.answer ≠ "") (ha2 : q2.answer ≠ "")
    (hconcept : checkSameConcept q1 q2 = true) :
    (areQuestionsDuplicate ansSim threshold q1 q2 embSim = true
      ↔ ansSim q1.answer q2.answer ≥ 1/2) := by
  have h1 : ¬ (q1.question_type ≠ q2.question_type) := by simpa using htype
  have h2 : ¬ (embSim < threshold) := not_lt.mpr hemb
  have h3 : ¬ (jaccardSimilarity q1.question_text q2.question_text < 3/10) := not_lt.mpr hjac
  by_cases hs : ansSim q1.answer q2.answer < 1/2
  · have h4 : (q1.answer ≠ "" ∧ q2.answer ≠ "" ∧ ansSim q1.answer q2.answer < 1/2) :=
      ⟨ha1, ha2, hs⟩
    simp only [areQuestionsDuplicate, if_neg h1, if_neg h2, if_neg h3, if_pos h4]
    constructor
    · intro h; exact absurd h (by simp)
    · intro h; exact absurd hs (not_lt.mpr h)
  · have h4 : ¬ (q1.answer ≠ "" ∧ q2.answer ≠ "" ∧ ansSim q1.answer q2.answer < 1/2) := by
      intro h; exact hs h.2.2
    have h5 : ¬ ¬ (checkSameConcept q1 q2 = true) := by simpa using hconcept
    simp only [areQuestionsDuplicate, if_neg h1, if_neg h2, if_neg h3, if_neg h4, if_neg h5]
    simpa using not_lt.mp hs

/-- Two same-typed, same-texted questions about the same subtopic whose
answers contradict each other. -/
def qAnsA : Question :=
  ⟨"q1", "what is the capital of france", "short_answer", "paris is the capital",
   "geography", "", 1/2, 1/2⟩

/-- Counterpart of `qAnsA` with a different answer. -/
def qAnsB : Question :=
  ⟨"q2", "what is the capital of france", "short_answer", "lyon is the capital",
   "geography", "", 1/2, 1/2⟩

/-- Witness for `are_questions_duplicate_answer_threshold`: with answer
similarity `0.6` the concrete pair is marked duplicate. -/
theorem are_questions_duplicate_answer_threshold_witness :
    (qAnsA.question_type = qAnsB.question_type ∧ (9:ℚ)/10 ≥ 17/20 ∧
     jaccardSimilarity qAnsA.question_text qAnsB.question_text ≥ 3/10 ∧
     qAnsA.answer ≠ "" ∧ qAnsB.answer ≠ "" ∧ checkSameConcept qAnsA qAnsB = true) ∧
    (areQuestionsDuplicate (fun _ _ => (3:ℚ)/5) (17/20) qAnsA qAnsB (9/10) = true
      ↔ ((fun _ _ => (3:ℚ)/5) qAnsA.answer qAnsB.answer) ≥ 1/2) := by
  have hj : jaccardSimilarity qAnsA.question_text qAnsB.question_text = 1 := by
    have h1 : wordSet (pyLower qAnsA.question_text)
        = ["what", "is", "the", "capital", "of", "france"] := by decide
    rw [show qAnsB.question_text = qAnsA.question_text from rfl, jaccardSimilarity, h1]
    norm_num
  have hjge : jaccardSimilarity qAnsA.question_text qAnsB.question_text ≥ 3/10 := by
    rw [hj]; norm_num
  exact ⟨⟨by decide, by norm_num, hjge, by decide, by decide, by decide⟩,
    are_questions_duplicate_answer_threshold (fun _ _ => (3:ℚ)/5) (17/20) qAnsA qAnsB (9/10)
      (by decide) (by norm_num) hjge (by decide) (by decide) (by decide)⟩

/-- C7 counterexample: a pair satisfying every precondition of the claim
whose answer similarity is `0.4` — at least the claimed `0.3` cutoff — is
nevertheless not marked duplicate, because the code rejects below `0.5`. -/
theorem are_questions_duplicate_answer_point3_refuted :
    qAnsA.question_type = qAnsB.question_type ∧
    (9:ℚ)/10 ≥ 17/20 ∧
    qAnsA.answer ≠ "" ∧ qAnsB.answer ≠ "" ∧
    checkSameConcept qAnsA qAnsB = true ∧
    ((fun _ _ => (2:ℚ)/5) qAnsA.answer qAnsB.answer) ≥ 3/10 ∧
    areQuestionsDuplicate (fun _ _ => (2:ℚ)/5) (17/20) qAnsA qAnsB (9/10) = false := by
  refine ⟨by decide, by norm_num, by decide, by decide, by decide, by norm_num, ?_⟩
  have hj : jaccardSimilarity qAnsA.question_text qAnsB.question_text = 1 := by
    have h1 : wordSet (pyLower qAnsA.question_text)
        = ["what", "is", "the", "capital", "of", "france"] := by decide
    rw [show qAnsB.question_text = qAnsA.question_text from rfl, jaccardSimilarity, h1]
    norm_num
  rw [areQuestionsDuplicate, hj]
  norm_num
  decide

/-- The running argmax of `argmaxAux` stays inside the list and attains
the maximum, given the invariants of the scan (the remaining list is the
tail from `i`, the best index is in range, and every scanned entry is at
most the best value). -/
theorem argmaxAux_spec (S : List ℚ) :
    ∀ (l : List ℚ) (i bi : ℕ), l = S.drop i → bi < S.length →
      (∀ j, j < i → S.getD j 0 ≤ S.getD bi 0) →
      argmaxAux l i bi (S.getD bi 0) < S.length ∧
      (∀ j, j < S.length → S.getD j 0 ≤ S.getD (argmaxAux l i bi (S.getD bi 0)) 0) := by
  intro l
  induction l with
  | nil =>
      intro i bi hdrop hbi hprev
      have hlen : S.length ≤ i := by
        by_contra hlt
        push_neg at hlt
        have := List.drop_eq_nil_iff.mp hdrop.symm
        omega
      refine ⟨by simpa [argmaxAux] using hbi, ?_⟩
      intro j hj
      simpa [argmaxAux] using hprev j (lt_of_lt_of_le hj hlen)
  | cons x xs ih =>
      intro i bi hdrop hbi hprev
      have hiS : i < S.length := by
        by_contra hge
        push_neg at hge
        rw [List.drop_eq_nil_of_le hge] at hdrop
        exact List.cons_ne_nil x xs hdrop
      have hx : x = S.getD i 0 := by
        have h1 : S.drop i = S[i] :: S.drop (i + 1) := List.drop_eq_getElem_cons hiS
        rw [h1] at hdrop
        have := List.head_eq_of_cons_eq hdrop
        rw [this, List.getD_eq_getElem S 0 hiS]
      have hxs : xs = S.drop (i + 1) := by
        have h1 : S.drop i = S[i] :: S.drop (i + 1) := List.drop_eq_getElem_cons hiS
        rw [h1] at hdrop
        exact List.tail_eq_of_cons_eq hdrop
      have hunf : ∀ bv : ℚ, argmaxAux (x :: xs) i bi bv
          = if x > bv then argmaxAux xs (i + 1) i x else argmaxAux xs (i + 1) bi bv :=
        fun bv => rfl
      by_cases hgt : x > S.getD bi 0
      · rw [hunf, if_pos hgt, hx]
        exact ih (i + 1) i hxs hiS (fun j hj => by
          rcases Nat.lt_succ_iff_lt_or_eq.mp hj with h | h
          · exact le_trans (hprev j h) (le_of_lt (hx ▸ hgt))
          · subst h; exact le_refl _)
      · rw [hunf, if_neg hgt]
        exact ih (i + 1) bi hxs hbi (fun j hj => by
          rcases Nat.lt_succ_iff_lt_or_eq.mp hj with h | h
          · exact hprev j h
          · subst h; rw [← hx]; exact not_lt.mp hgt)

/-- `np.argmax` of a non-empty list is an in-range index attaining the
maximum. -/
theorem argmaxIdx_spec (S : List ℚ) (hne : S ≠ []) :
    argmaxIdx S < S.length ∧ ∀ j, j < S.length → S.getD j 0 ≤ S.getD (argmaxIdx S) 0 := by
  cases S with
  | nil => exact absurd rfl hne
  | cons x xs =>
      have h0 : (0 : ℕ) < (x :: xs).length := by simp
      have hres : argmaxIdx (x :: xs) = argmaxAux xs 1 0 ((x :: xs).getD 0 0) := rfl
      rw [hres]
      refine argmaxAux_spec (x :: xs) xs 1 0 (by simp) h0 ?_
      intro j hj
      have hj0 : j = 0 := by omega
      subst hj0
      exact le_refl _

/-- A successful association-list lookup returns a stored pair. -/
theorem lookup_mem_pairs {m : List (String × String)} {s v : String}
    (h : m.lookup s = some v) : (s, v) ∈ m := by
  induction m with
  | nil => simp [List.lookup] at h
  | cons p rest ih =>
      rw [List.lookup] at h
      by_cases hs : s = p.1
      · have hb : (s == p.1) = true := beq_iff_eq.mpr hs
        rw [hb] at h
        simp only [Option.some.injEq] at h
        obtain ⟨a, b⟩ := p
        simp only at hs h
        subst hs
        subst h
        exact List.mem_cons_self _ _
      · have hb : (s == p.1) = false := beq_eq_false_iff_ne.mpr hs
        rw [hb] at h
        exact List.mem_cons_of_mem p (ih h)

/-- Lookup of a string that is not among the keys fails. -/
theorem lookup_none_of_not_mem {m : List (String × String)} {s : String}
    (h : s ∉ m.map Prod.fst) : m.lookup s = none := by
  induction m with
  | nil => rfl
  | cons p rest ih =>
      rw [List.lookup]
      simp only [List.map_cons, List.mem_cons] at h
      push_neg at h
      have hb : (s == p.1) = false := beq_eq_false_iff_ne.mpr h.1
      rw [hb]
      exact ih h.2

/-- C6 (amended): over a mapping with distinct keys and non-empty topic
names, an exact key is assigned its mapped topic; a non-empty string that
is not a key is assigned the topic of the mapped key with the highest
similarity only if that similarity strictly exceeds `0.6`
(topic_normalization.py line 589 tests `> 0.6`, not `≥`), and `"General"`
otherwise. -/
theorem map_subtopic_assignment (simT : String → String → ℚ)
    (mapping : List (String × String)) (s : String)
    (_hkeys : (mapping.map Prod.fst).Nodup)
    (hvals : ∀ p ∈ mapping, p.2 ≠ "") :
    (∀ v, mapping.lookup s = some v → mapSubtopic simT mapping s = v) ∧
    (s ∉ mapping.map Prod.fst → s ≠ "" → mapping ≠ [] →
      (argmaxIdx ((mapping.map Prod.fst).map (simT s)) < mapping.length ∧
       (∀ j, j < mapping.length →
          ((mapping.map Prod.fst).map (simT s)).getD j 0 ≤
          ((mapping.map Prod.fst).map (simT s)).getD
            (argmaxIdx ((mapping.map Prod.fst).map (simT s))) 0) ∧
       mapSubtopic simT mapping s =
         (if ((mapping.map Prod.fst).map (simT s)).getD
              (argmaxIdx ((mapping.map Prod.fst).map (simT s))) 0 > 3/5
          then (mapping.getD (argmaxIdx ((mapping.map Prod.fst).map (simT s))) ("", "")).2
          else "General"))) := by
  constructor
  · intro v hv
    have hvne : v ≠ "" := hvals (s, v) (lookup_mem_pairs hv)
    have hinner : (if v = "" ∧ s ≠ "" then findSimilarTopic simT s mapping else v) = v :=
      if_neg (fun hc => hvne hc.1)
    simp only [mapSubtopic, hv, Option.getD_some]
    rw [hinner, if_neg hvne]
  · intro hnotkey hsne hmne
    have hlk : mapping.lookup s = none := lookup_none_of_not_mem hnotkey
    have hlen : ((mapping.map Prod.fst).map (simT s)).length = mapping.length := by simp
    have hsimsne : (mapping.map Prod.fst).map (simT s) ≠ [] := by
      simp only [ne_eq, List.map_eq_nil_iff]
      exact hmne
    obtain ⟨hlt, hmax⟩ := argmaxIdx_spec ((mapping.map Prod.fst).map (simT s)) hsimsne
    refine ⟨by rwa [hlen] at hlt, fun j hj => hmax j (by rwa [hlen]), ?_⟩
    have hcond : ¬ (s = "" ∨ mapping.isEmpty = true) := by
      rintro (h1 | h2)
      · exact hsne h1
      · exact hmne (List.isEmpty_iff.mp h2)
    have hfind : findSimilarTopic simT s mapping =
        (if ((mapping.map Prod.fst).map (simT s)).getD
              (argmaxIdx ((mapping.map Prod.fst).map (simT s))) 0 > 3/5
         then (mapping.getD (argmaxIdx ((mapping.map Prod.fst).map (simT s))) ("", "")).2
         else "General") := by
      rw [findSimilarTopic, if_neg hcond]
    have hinner : (if True ∧ s ≠ "" then findSimilarTopic simT s mapping
        else "") = findSimilarTopic simT s mapping := if_pos ⟨trivial, hsne⟩
    simp only [mapSubtopic, hlk, Option.getD_none, eq_self_iff_true]
    rw [hinner, hfind]
    by_cases hgt : ((mapping.map Prod.fst).map (simT s)).getD
        (argmaxIdx ((mapping.map Prod.fst).map (simT s))) 0 > 3/5
    · rw [if_pos hgt]
      have hilt : argmaxIdx ((mapping.map Prod.fst).map (simT s)) < mapping.length := by
        rwa [hlen] at hlt
      have hmem : mapping.getD (argmaxIdx ((mapping.map Prod.fst).map (simT s))) ("", "")
          ∈ mapping := by
        rw [List.getD_eq_getElem _ _ hilt]
        exact List.getElem_mem hilt
      rw [if_neg (hvals _ hmem)]
    · rw [if_neg hgt]
      rw [if_neg (show ("General" : String) ≠ "" by decide)]

/-- A two-key mapping for the Mapper witness. -/
def mapWitness : List (String × String) := [("alpha", "T1"), ("beta", "T2")]

/-- A similarity stub favoring the key `"alpha"`. -/
def simWitness : String → String → ℚ := fun _ k => if k = "alpha" then 7/10 else 1/10

/-- Witness for `map_subtopic_assignment` at the key `"alpha"`. -/
theorem map_subtopic_assignment_witness :
    (mapWitness.map Prod.fst).Nodup ∧ (∀ p ∈ mapWitness, p.2 ≠ "") ∧
    ((∀ v, mapWitness.lookup "alpha" = some v → mapSubtopic simWitness mapWitness "alpha" = v) ∧
     ("alpha" ∉ mapWitness.map Prod.fst → "alpha" ≠ "" → mapWitness ≠ [] →
       (argmaxIdx ((mapWitness.map Prod.fst).map (simWitness "alpha")) < mapWitness.length ∧
        (∀ j, j < mapWitness.length →
           ((mapWitness.map Prod.fst).map (simWitness "alpha")).getD j 0 ≤
           ((mapWitness.map Prod.fst).map (simWitness "alpha")).getD
             (argmaxIdx ((mapWitness.map Prod.fst).map (simWitness "alpha"))) 0) ∧
        mapSubtopic simWitness mapWitness "alpha" =
          (if ((mapWitness.map Prod.fst).map (simWitness "alpha")).getD
               (argmaxIdx ((mapWitness.map Prod.fst).map (simWitness "alpha"))) 0 > 3/5
           then (mapWitness.getD
               (argmaxIdx ((mapWitness.map Prod.fst).map (simWitness "alpha"))) ("", "")).2
           else "General")))) :=
  ⟨by decide, by decide,
   map_subtopic_assignment simWitness mapWitness "alpha" (by decide) (by decide)⟩

/-- A one-key mapping for the Mapper counterexample. -/
def mapRefute : List (String × String) := [("a", "T")]

/-- A similarity stub that always returns exactly `0.6`. -/
def simRefute : String → String → ℚ := fun _ _ => 3/5

unseal Rat.mul Rat.add Rat.inv in
/-- C6 counterexample: for the non-key string `"b"`, the best mapped key
`"a"` has similarity exactly `0.6`, which meets the claim's `≥ 0.6` bar,
yet the Mapper assigns `"General"` rather than the mapped topic `"T"`,
because the code requires a strict `> 0.6`. -/
theorem map_subtopic_point6_refuted :
    "b" ∉ (mapRefute.map Prod.fst) ∧
    simRefute "b" "a" = 3/5 ∧ ((3:ℚ)/5 ≥ 3/5) ∧
    (∀ k ∈ mapRefute.map Prod.fst, simRefute "b" k ≤ simRefute "b" "a") ∧
    mapSubtopic simRefute mapRefute "b" = "General" ∧ "General" ≠ "T" := by
  decide

/-- The running best of the silhouette scan: over a strictly increasing
index list, the fold either keeps its start (when nothing beats it) or
lands on the first index attaining the maximum (strictly above the
start), which among ties is the least index. -/
theorem foldl_best_spec (f : ℕ → ℚ) :
    ∀ (l : List ℕ) (b : ℚ × ℕ), l.Pairwise (· < ·) →
      (l.foldl (fun best k => if f k > best.1 then (f k, k) else best) b = b ∧
        ∀ k ∈ l, f k ≤ b.1) ∨
      (let r := l.foldl (fun best k => if f k > best.1 then (f k, k) else best) b
       r.2 ∈ l ∧ r.1 = f r.2 ∧ b.1 < r.1 ∧ (∀ k ∈ l, f k ≤ r.1) ∧
         (∀ k ∈ l, f k = r.1 → r.2 ≤ k)) := by
  intro l
  induction l with
  | nil => intro b _; left; exact ⟨rfl, by simp⟩
  | cons x xs ih =>
      intro b hsort
      have hxlt : ∀ k ∈ xs, x < k := fun k hk => List.rel_of_pairwise_cons hsort hk
      have hsort' : xs.Pairwise (· < ·) := hsort.of_cons
      by_cases hx : f x > b.1
      · have hstep : (x :: xs).foldl (fun best k => if f k > best.1 then (f k, k) else best) b
            = xs.foldl (fun best k => if f k > best.1 then (f k, k) else best) (f x, x) := by
          simp only [List.foldl_cons, if_pos hx]
        rw [hstep]
        rcases ih (f x, x) hsort' with ⟨heq, hle⟩ | ⟨hmem, hval, hlt, hle, hties⟩
        · right
          rw [heq]
          refine ⟨List.mem_cons_self x xs, rfl, hx, ?_, ?_⟩
          · intro k hk
            rcases List.mem_cons.mp hk with h | h
            · subst h; exact le_refl _
            · exact hle k h
          · intro k hk _
            rcases List.mem_cons.mp hk with h | h
            · subst h; exact le_refl _
            · exact le_of_lt (hxlt k h)
        · right
          refine ⟨List.mem_cons_of_mem x hmem, hval, lt_trans hx hlt, ?_, ?_⟩
          · intro k hk
            rcases List.mem_cons.mp hk with h | h
            · subst h; exact le_of_lt (lt_of_lt_of_le hlt (by simp))
            · exact hle k h
          · intro k hk hkeq
            rcases List.mem_cons.mp hk with h | h
            · subst h
              exact absurd hkeq (ne_of_lt (lt_of_le_of_lt (by simp) hlt))
            · exact hties k h hkeq
      · have hstep : (x :: xs).foldl (fun best k => if f k > best.1 then (f k, k) else best) b
            = xs.foldl (fun best k => if f k > best.1 then (f k, k) else best) b := by
          simp only [List.foldl_cons, if_neg hx]
        rw [hstep]
        rcases ih b hsort' with ⟨heq, hle⟩ | ⟨hmem, hval, hlt, hle, hties⟩
        · left
          refine ⟨heq, ?_⟩
          intro k hk
          rcases List.mem_cons.mp hk with h | h
          · subst h; exact not_lt.mp hx
          · exact hle k h
        · right
          refine ⟨List.mem_cons_of_mem x hmem, hval, hlt, ?_, ?_⟩
          · intro k hk
            rcases List.mem_cons.mp hk with h | h
            · subst h; exact le_of_lt (lt_of_le_of_lt (not_lt.mp hx) hlt)
            · exact hle k h
          · intro k hk hkeq
            rcases List.mem_cons.mp hk with h | h
            · subst h
              exact absurd hkeq (ne_of_lt (lt_of_le_of_lt (not_lt.mp hx) hlt))
            · exact hties k h hkeq

/-- C9 (amended): when the candidate range `[min(3,n), min(2*target,n-1)]`
is non-degenerate and some candidate scores above the `-1` sentinel, the
Clusterer searches exactly that range and returns the candidate with the
highest silhouette score, breaking ties by the smallest such `k` (the
ascending scan updates only on strict improvement), not by closeness to
`target_count`. -/
theorem determine_optimal_clusters_spec (scoreF : ℕ → ℚ) (targetCount n : ℕ)
    (hrange : min 3 n < min (targetCount * 2) (n - 1))
    (hex : ∃ k ∈ List.range' (min 3 n) (min (targetCount * 2) (n - 1) + 1 - min 3 n),
        (-1 : ℚ) < scoreF k) :
    determineOptimalClusters scoreF targetCount n
        ∈ List.range' (min 3 n) (min (targetCount * 2) (n - 1) + 1 - min 3 n) ∧
    (∀ k ∈ List.range' (min 3 n) (min (targetCount * 2) (n - 1) + 1 - min 3 n),
        scoreF k ≤ scoreF (determineOptimalClusters scoreF targetCount n)) ∧
    (∀ k ∈ List.range' (min 3 n) (min (targetCount * 2) (n - 1) + 1 - min 3 n),
        scoreF k = scoreF (determineOptimalClusters scoreF targetCount n) →
        determineOptimalClusters scoreF targetCount n ≤ k) := by
  have hn3 : 3 ≤ n := by
    rcases Nat.lt_or_ge n 3 with h | h
    · exfalso
      have h1 : min 3 n = n := min_eq_right (le_of_lt h)
      have h2 : min (targetCount * 2) (n - 1) ≤ n - 1 := min_le_right _ _
      omega
    · exact h
  have hmin3 : min 3 n = 3 := min_eq_left hn3
  have hgt1 : ∀ k ∈ List.range' (min 3 n) (min (targetCount * 2) (n - 1) + 1 - min 3 n),
      1 < k := by
    intro k hk
    have := (List.mem_range'_1.mp hk).1
    omega
  have heff : ∀ k ∈ List.range' (min 3 n) (min (targetCount * 2) (n - 1) + 1 - min 3 n),
      (if k > 1 then scoreF k else 0) = scoreF k := by
    intro k hk
    rw [if_pos (hgt1 k hk)]
  have hdef : determineOptimalClusters scoreF targetCount n =
      ((List.range' (min 3 n) (min (targetCount * 2) (n - 1) + 1 - min 3 n)).foldl
        (fun (best : ℚ × ℕ) k => if (if k > 1 then scoreF k else 0) > best.1
          then ((if k > 1 then scoreF k else 0), k) else best) (-1, targetCount)).2 := by
    simp only [determineOptimalClusters]
    rw [if_neg (not_le.mpr hrange)]
  have hsort : (List.range' (min 3 n) (min (targetCount * 2) (n - 1) + 1 - min 3 n)).Pairwise
      (· < ·) := List.pairwise_lt_range' _ _
  rcases foldl_best_spec (fun k => if k > 1 then scoreF k else 0)
      (List.range' (min 3 n) (min (targetCount * 2) (n - 1) + 1 - min 3 n))
      (-1, targetCount) hsort with ⟨heq, hle⟩ | ⟨hmem, hval, hlt, hle, hties⟩
  · exfalso
    obtain ⟨k0, hk0, hk0gt⟩ := hex
    have := hle k0 hk0
    rw [heff k0 hk0] at this
    exact absurd hk0gt (not_lt.mpr this)
  · rw [hdef]
    refine ⟨hmem, ?_, ?_⟩
    · intro k hk
      have h1 := hle k hk
      rw [heff k hk] at h1
      rw [← heff _ hmem, ← hval]
      exact h1
    · intro k hk hkeq
      refine hties k hk ?_
      rw [heff k hk, hkeq, ← heff _ hmem, ← hval]

/-- Silhouette stub scoring `0.5` at `k = 3` and `k = 10`, `0` elsewhere. -/
def scoreTie : ℕ → ℚ := fun k => if k = 3 ∨ k = 10 then 1/2 else 0

set_option maxRecDepth 100000 in
unseal Rat.mul Rat.add Rat.inv in
/-- C9 counterexample: with `target_count = 10`, `n = 30` and a silhouette
tie between `k = 3` and `k = 10`, the code returns `3`, although the
claim's tie-break (`k` closest to the target) demands `10`. -/
theorem determine_optimal_clusters_tiebreak_refuted :
    determineOptimalClusters scoreTie 10 30 = 3 ∧
    scoreTie 3 = scoreTie 10 ∧
    (∀ k ∈ List.range' (min 3 30) (min (10 * 2) (30 - 1) + 1 - min 3 30),
        scoreTie k ≤ scoreTie 10) ∧
    ((10 : ℤ) - 10).natAbs < ((3 : ℤ) - 10).natAbs := by
  decide

set_option maxRecDepth 100000 in
unseal Rat.mul Rat.add Rat.inv in
/-- Witness for `determine_optimal_clusters_spec` on the tie scenario. -/
theorem determine_optimal_clusters_spec_witness :
    (min 3 30 < min (10 * 2) (30 - 1) ∧
     ∃ k ∈ List.range' (min 3 30) (min (10 * 2) (30 - 1) + 1 - min 3 30),
        (-1 : ℚ) < scoreTie k) ∧
    (determineOptimalClusters scoreTie 10 30
        ∈ List.range' (min 3 30) (min (10 * 2) (30 - 1) + 1 - min 3 30) ∧
     (∀ k ∈ List.range' (min 3 30) (min (10 * 2) (30 - 1) + 1 - min 3 30),
        scoreTie k ≤ scoreTie (determineOptimalClusters scoreTie 10 30)) ∧
     (∀ k ∈ List.range' (min 3 30) (min (10 * 2) (30 - 1) + 1 - min 3 30),
        scoreTie k = scoreTie (determineOptimalClusters scoreTie 10 30) →
        determineOptimalClusters scoreTie 10 30 ≤ k)) :=
  ⟨⟨by decide, 3, by decide, by decide⟩,
   determine_optimal_clusters_spec scoreTie 10 30 (by decide) ⟨3, by decide, by decide⟩⟩

/-- Stable descending insertion permutes. -/
theorem insertByScoreDesc_perm (x : ℚ × Question) (l : List (ℚ × Question)) :
    (insertByScoreDesc x l).Perm (x :: l) := by
  induction l with
  | nil => simp [insertByScoreDesc]
  | cons y ys ih =>
      by_cases hc : x.1 < y.1
      · rw [insertByScoreDesc, if_pos hc]
        exact (ih.cons y).trans (List.Perm.swap x y ys)
      · rw [insertByScoreDesc, if_neg hc]

/-- The stable descending sort is a permutation. -/
theorem sortByScoreDesc_perm (l : List (ℚ × Question)) : (sortByScoreDesc l).Perm l := by
  induction l with
  | nil => simp [sortByScoreDesc]
  | cons x xs ih =>
      rw [sortByScoreDesc]
      exact (insertByScoreDesc_perm x (sortByScoreDesc xs)).trans (ih.cons x)

/-- The greedy diversity pass appends to the already-selected list a
subsequence of the (scored) candidate questions. -/
theorem greedyDiverse_shape (simT : String → String → ℚ) (maxCount : ℕ) :
    ∀ (l : List (ℚ × Question)) (sel : List Question),
      ∃ t, greedyDiverse simT maxCount l sel = sel ++ t ∧ t.Sublist (l.map Prod.snd) := by
  intro l
  induction l with
  | nil => intro sel; exact ⟨[], by simp [greedyDiverse], by simp⟩
  | cons p rest ih =>
      intro sel
      obtain ⟨s, q⟩ := p
      by_cases hfull : maxCount ≤ sel.length
      · refine ⟨[], ?_, by simp⟩
        rw [greedyDiverse, if_pos hfull]
        simp
      · by_cases hdiv : sel.all (fun r => ¬ (simT q.question_text r.question_text > 7/10))
        · obtain ⟨t, ht, hsub⟩ := ih (sel ++ [q])
          refine ⟨q :: t, ?_, ?_⟩
          · rw [greedyDiverse, if_neg hfull, if_pos hdiv, ht]
            simp
          · simpa using hsub.cons₂ q
        · obtain ⟨t, ht, hsub⟩ := ih sel
          refine ⟨t, ?_, ?_⟩
          · rw [greedyDiverse, if_neg hfull, if_neg hdiv, ht]
          · simpa using hsub.cons q

/-- The greedy diversity pass never selects more than `max_count`. -/
theorem greedyDiverse_length_le (simT : String → String → ℚ) (maxCount : ℕ) :
    ∀ (l : List (ℚ × Question)) (sel : List Question), sel.length ≤ maxCount →
      (greedyDiverse simT maxCount l sel).length ≤ maxCount := by
  intro l
  induction l with
  | nil => intro sel h; simpa [greedyDiverse] using h
  | cons p rest ih =>
      intro sel h
      obtain ⟨s, q⟩ := p
      by_cases hfull : maxCount ≤ sel.length
      · rw [greedyDiverse, if_pos hfull]; exact h
      · by_cases hdiv : sel.all (fun r => ¬ (simT q.question_text r.question_text > 7/10))
        · rw [greedyDiverse, if_neg hfull, if_pos hdiv]
          exact ih (sel ++ [q]) (by simp; omega)
        · rw [greedyDiverse, if_neg hfull, if_neg hdiv]
          exact ih sel h

/-- C5 (amended): for a group of pairwise-distinct questions and any cap,
the Diversity Selector returns exactly `min(len(group), max_count)`
questions: the greedy pass keeps at most `max_count`, and the fill phase
tops the selection up from the unselected remainder, which is large
enough exactly because distinct questions cannot be swallowed by the
value-equality membership test. -/
theorem select_diverse_count (simT : String → String → ℚ) (qs : List Question)
    (maxCount : ℕ) (hnd : qs.Nodup) :
    (selectDiverseQuestions simT qs maxCount).length = min qs.length maxCount := by
  by_cases hle : qs.length ≤ maxCount
  · rw [selectDiverseQuestions, if_pos hle, min_eq_left hle]
  · push_neg at hle
    have hperm : ((sortByScoreDesc (qs.map (fun q => (calculateQuestionScore q, q)))).map
        Prod.snd).Perm qs := by
      have h1 := (sortByScoreDesc_perm (qs.map (fun q => (calculateQuestionScore q, q)))).map
        Prod.snd
      have h2 : (qs.map (fun q => (calculateQuestionScore q, q))).map Prod.snd = qs := by
        rw [List.map_map,
          show (Prod.snd ∘ fun q => (calculateQuestionScore q, q)) = id from rfl, List.map_id]
      rwa [h2] at h1
    have hLnd : ((sortByScoreDesc (qs.map (fun q => (calculateQuestionScore q, q)))).map
        Prod.snd).Nodup := hperm.nodup_iff.mpr hnd
    have hLlen : ((sortByScoreDesc (qs.map (fun q => (calculateQuestionScore q, q)))).map
        Prod.snd).length = qs.length := hperm.length_eq
    obtain ⟨t, ht, hsub⟩ := greedyDiverse_shape simT maxCount
      (sortByScoreDesc (qs.map (fun q => (calculateQuestionScore q, q)))) []
    have hselnd : (greedyDiverse simT maxCount
        (sortByScoreDesc (qs.map (fun q => (calculateQuestionScore q, q)))) []).Nodup := by
      rw [ht]
      simpa using hsub.nodup hLnd
    have hselsub : ∀ q ∈ greedyDiverse simT maxCount
        (sortByScoreDesc (qs.map (fun q => (calculateQuestionScore q, q)))) [],
        q ∈ (sortByScoreDesc (qs.map (fun q => (calculateQuestionScore q, q)))).map
          Prod.snd := by
      rw [ht]
      intro q hq
      exact hsub.subset (by simpa using hq)
    have hsellen : (greedyDiverse simT maxCount
        (sortByScoreDesc (qs.map (fun q => (calculateQuestionScore q, q)))) []).length
        ≤ maxCount := greedyDiverse_length_le simT maxCount _ [] (by simp)
    rw [selectDiverseQuestions, if_neg (not_le.mpr hle), min_eq_right (le_of_lt hle)]
    by_cases hfill : (greedyDiverse simT maxCount
        (sortByScoreDesc (qs.map (fun q => (calculateQuestionScore q, q)))) []).length
        < maxCount
    · rw [if_pos hfill]
      have hinlen : (((sortByScoreDesc (qs.map (fun q => (calculateQuestionScore q, q)))).map
          Prod.snd).filter (fun q => q ∈ greedyDiverse simT maxCount
            (sortByScoreDesc (qs.map (fun q => (calculateQuestionScore q, q)))) [])).length
          ≤ (greedyDiverse simT maxCount
            (sortByScoreDesc (qs.map (fun q => (calculateQuestionScore q, q)))) []).length := by
        refine List.Subperm.length_le ?_
        refine List.subperm_of_subset ?_ ?_
        · exact (List.filter_sublist _).nodup hLnd
        · intro q hq
          have := List.of_mem_filter hq
          simpa using this
      have hflen : (((sortByScoreDesc (qs.map (fun q => (calculateQuestionScore q, q)))).map
          Prod.snd).filter (fun q => q ∉ greedyDiverse simT maxCount
            (sortByScoreDesc (qs.map (fun q => (calculateQuestionScore q, q)))) [])).length
          ≥ maxCount - (greedyDiverse simT maxCount
            (sortByScoreDesc (qs.map (fun q => (calculateQuestionScore q, q)))) []).length := by
        have hpart := List.length_eq_length_filter_add
          (l := (sortByScoreDesc (qs.map (fun q => (calculateQuestionScore q, q)))).map
            Prod.snd)
          (fun q => decide (q ∈ greedyDiverse simT maxCount
            (sortByScoreDesc (qs.map (fun q => (calculateQuestionScore q, q)))) []))
        have hsame : (((sortByScoreDesc (qs.map (fun q => (calculateQuestionScore q, q)))).map
            Prod.snd).filter (fun q => !(decide (q ∈ greedyDiverse simT maxCount
              (sortByScoreDesc (qs.map (fun q => (calculateQuestionScore q, q)))) []))))
            = (((sortByScoreDesc (qs.map (fun q => (calculateQuestionScore q, q)))).map
            Prod.snd).filter (fun q => q ∉ greedyDiverse simT maxCount
              (sortByScoreDesc (qs.map (fun q => (calculateQuestionScore q, q)))) [])) := by
          congr 1
          funext q
          rw [decide_not]
        rw [hsame] at hpart
        omega
      rw [List.length_append, List.length_take]
      omega
    · rw [if_neg hfill]
      omega

/-- One question, to be repeated verbatim in the counterexample group. -/
def qDup : Question :=
  ⟨"d1", "explain gradient descent optimization", "short_answer", "it minimizes loss",
   "ml", "", 1/2, 1/2⟩

set_option maxRecDepth 100000 in
unseal Rat.mul Rat.add Rat.inv in
/-- C5 counterexample: three value-identical questions with cap 2 (and a
deterministic embedding, so equal texts have cosine similarity 1): the
greedy pass keeps one and rejects the rest as non-diverse, and the fill
phase finds no unselected questions because Python's `q not in selected`
compares dictionaries by value — the selector returns 1 question, not
`min(3, 2) = 2`. -/
theorem select_diverse_count_refuted :
    (selectDiverseQuestions (fun _ _ => (1 : ℚ)) [qDup, qDup, qDup] 2).length = 1 ∧
    min ([qDup, qDup, qDup] : List Question).length 2 = 2 := by
  decide

/-- First of three pairwise-distinct questions for the witness. -/
def qDivA : Question :=
  ⟨"d1", "explain gradient descent optimization", "short_answer", "it minimizes loss",
   "ml", "", 1/2, 1/2⟩

/-- Second distinct witness question. -/
def qDivB : Question :=
  ⟨"d2", "define overfitting in machine learning", "short_answer", "memorizing noise",
   "ml", "", 1/2, 1/2⟩

/-- Third distinct witness question. -/
def qDivC : Question :=
  ⟨"d3", "what is a convolutional layer", "short_answer", "a sliding filter",
   "ml", "", 1/2, 1/2⟩

/-- Witness for `select_diverse_count` on three distinct questions. -/
theorem select_diverse_count_witness :
    ([qDivA, qDivB, qDivC] : List Question).Nodup ∧
    (selectDiverseQuestions (fun _ _ => (1 : ℚ)) [qDivA, qDivB, qDivC] 2).length
      = min ([qDivA, qDivB, qDivC] : List Question).length 2 :=
  ⟨by decide, select_diverse_count (fun _ _ => (1 : ℚ)) [qDivA, qDivB, qDivC] 2 (by decide)⟩

/-- A pair below the embedding-similarity threshold is never a duplicate
(the check at deduplication.py line 124). -/
theorem areQuestionsDuplicate_of_lt (ansSim : String → String → ℚ) (threshold : ℚ)
    (q1 q2 : Question) (embSim : ℚ) (h : embSim < threshold) :
    areQuestionsDuplicate ansSim threshold q1 q2 embSim = false := by
  rw [areQuestionsDuplicate]
  by_cases ht : q1.question_type ≠ q2.question_type
  · rw [if_pos ht]
  · rw [if_neg ht, if_pos h]

/-- When no pair passes the duplicate test, one outer iteration of
`_find_duplicates` leaves the empty state unchanged. -/
theorem findDupStep_id (qs : List Question) (simM : ℕ → ℕ → ℚ)
    (ansSim : String → String → ℚ) (threshold : ℚ)
    (h : ∀ i j, i < j → j < qs.length →
      areQuestionsDuplicate ansSim threshold (qs.getD i default) (qs.getD j default)
        (simM i j) = false) (i : ℕ) :
    findDupStep qs simM ansSim threshold ([], []) i = ([], []) := by
  rw [findDupStep]
  rw [if_neg (List.not_mem_nil i)]
  have hjs : (List.range qs.length).filter
      (fun j => decide (i < j ∧ j ∉ ([] : List ℕ) ∧
        areQuestionsDuplicate ansSim threshold (qs.getD i default) (qs.getD j default)
          (simM i j) = true)) = [] := by
    refine List.filter_eq_nil_iff.mpr ?_
    intro j hj
    simp only [decide_eq_true_eq, not_and]
    intro hij _
    rw [h i j hij (List.mem_range.mp hj)]
    simp
  simp only [hjs]
  simp

/-- When no pair passes the duplicate test, `_find_duplicates` records
nothing. -/
theorem findDupPairs_eq_nil (qs : List Question) (simM : ℕ → ℕ → ℚ)
    (ansSim : String → String → ℚ) (threshold : ℚ)
    (h : ∀ i j, i < j → j < qs.length →
      areQuestionsDuplicate ansSim threshold (qs.getD i default) (qs.getD j default)
        (simM i j) = false) :
    findDupPairs qs simM ansSim threshold = [] := by
  rw [findDupPairs]
  have hfold : ∀ l : List ℕ,
      l.foldl (findDupStep qs simM ansSim threshold) ([], []) = ([], []) := by
    intro l
    induction l with
    | nil => rfl
    | cons x xs ih => rw [List.foldl_cons, findDupStep_id qs simM ansSim threshold h x, ih]
  rw [hfold]

/-- C8 (amended): when the embedding call fails, the Duplicate Detector
does not propagate the failure — it substitutes a zero embedding matrix,
so every pairwise similarity is `0`, below any positive threshold: no
duplicates are found, every question is returned unique, and the
statistics dictionary carries no `"similarity_method"` key (the code has
no lexical fallback for duplicate detection). -/
theorem dedup_embedding_failure (embedF : List String → Except String (List (List ℚ)))
    (cosF : List ℚ → List ℚ → ℚ) (ansSim : String → String → ℚ) (threshold : ℚ)
    (qs : List Question) (e : String)
    (hlen : 1 < qs.length)
    (hfail : embedF (qs.map (fun q => q.question_text)) = Except.error e)
    (hcos : cosF (List.replicate 384 (0 : ℚ)) (List.replicate 384 (0 : ℚ)) = 0)
    (hthr : 0 < threshold) :
    deduplicateQuestions embedF cosF ansSim threshold qs
      = (qs, qs.map (fun q => (q, 0, true)), [], calcDedupStats qs qs []) ∧
    (calcDedupStats qs qs []).lookup "similarity_method" = none := by
  have hemb : generateEmbeddings embedF (qs.map (fun q => q.question_text))
      = List.replicate (qs.map (fun q => q.question_text)).length
          (List.replicate 384 (0 : ℚ)) := by
    rw [generateEmbeddings, hfail]
  have hnil : findDupPairs qs
      (fun i j => cosF ((generateEmbeddings embedF (qs.map (fun q => q.question_text))).getD i [])
        ((generateEmbeddings embedF (qs.map (fun q => q.question_text))).getD j []))
      ansSim threshold = [] := by
    refine findDupPairs_eq_nil qs _ ansSim threshold ?_
    intro i j hij hj
    refine areQuestionsDuplicate_of_lt ansSim threshold _ _ _ ?_
    have hi : i < (qs.map (fun q => q.question_text)).length := by
      rw [List.length_map]; omega
    have hjl : j < (qs.map (fun q => q.question_text)).length := by
      rw [List.length_map]; omega
    rw [hemb, List.getD_eq_getElem _ _ (by rw [List.length_replicate]; exact hi),
        List.getD_eq_getElem _ _ (by rw [List.length_replicate]; exact hjl)]
    simp only [List.getElem_replicate]
    rw [hcos]
    exact hthr
  have hdups : dupEntries qs
      (fun i j => cosF ((generateEmbeddings embedF (qs.map (fun q => q.question_text))).getD i [])
        ((generateEmbeddings embedF (qs.map (fun q => q.question_text))).getD j []))
      ansSim threshold = [] := by
    rw [dupEntries, hnil]
    rfl
  have hunique : getUniqueQuestions qs [] = qs := by
    rw [getUniqueQuestions]
    simp
  constructor
  · rw [deduplicateQuestions, if_neg (by omega)]
    simp only [hdups, hunique]
    rfl
  · rfl

/-- An embedding collaborator that always raises. -/
def embedFail : List String → Except String (List (List ℚ)) :=
  fun _ => Except.error "embedding backend down"

/-- Cosine similarity on zero rows, as sklearn computes it. -/
def cosZero : List ℚ → List ℚ → ℚ := fun _ _ => 0

/-- An answer-similarity stub returning `1`. -/
def ansOne : String → String → ℚ := fun _ _ => 1

/-- Word-for-word duplicate question, first copy. -/
def qFailA : Question :=
  ⟨"f1", "state the law of supply and demand", "short_answer", "prices balance quantity",
   "economics", "", 1/2, 1/2⟩

/-- Word-for-word duplicate question, second copy (distinct id). -/
def qFailB : Question :=
  ⟨"f2", "state the law of supply and demand", "short_answer", "prices balance quantity",
   "economics", "", 1/2, 1/2⟩

unseal Rat.mul Rat.add Rat.inv in
/-- Witness for `dedup_embedding_failure` on a failing embedding run over
two questions. -/
theorem dedup_embedding_failure_witness :
    (1 < ([qFailA, qFailB] : List Question).length ∧
     embedFail (([qFailA, qFailB] : List Question).map (fun q => q.question_text))
        = Except.error "embedding backend down" ∧
     cosZero (List.replicate 384 (0 : ℚ)) (List.replicate 384 (0 : ℚ)) = 0 ∧
     (0 : ℚ) < 17/20) ∧
    (deduplicateQuestions embedFail cosZero ansOne (17/20) [qFailA, qFailB]
      = ([qFailA, qFailB], ([qFailA, qFailB] : List Question).map (fun q => (q, 0, true)), [],
         calcDedupStats [qFailA, qFailB] [qFailA, qFailB] []) ∧
     (calcDedupStats [qFailA, qFailB] [qFailA, qFailB] []).lookup "similarity_method" = none) :=
  ⟨⟨by decide, rfl, rfl, by norm_num⟩,
   dedup_embedding_failure embedFail cosZero ansOne (17/20) [qFailA, qFailB]
     "embedding backend down" (by decide) rfl rfl (by norm_num)⟩

set_option maxRecDepth 100000 in
unseal Rat.mul Rat.add Rat.inv in
/-- C8 counterexample: with the embedding call failing on two word-for-word
identical questions, the detector removes nothing and its statistics hold
no `"similarity_method"` key — while the claimed lexical fallback (same
threshold, same secondary test, word-overlap similarity `1 ≥ 0.85`) would
have marked the pair duplicate and flagged the run. -/
theorem dedup_embedding_failure_refuted :
    (deduplicateQuestions embedFail cosZero ansOne (17/20) [qFailA, qFailB]).2.2.1 = [] ∧
    ((deduplicateQuestions embedFail cosZero ansOne (17/20) [qFailA, qFailB]).2.2.2).lookup
        "similarity_method" = none ∧
    jaccardSimilarity qFailA.question_text qFailB.question_text ≥ 17/20 ∧
    areQuestionsDuplicate ansOne (17/20) qFailA qFailB
        (jaccardSimilarity qFailA.question_text qFailB.question_text) = true := by
  decide

/-- One outer iteration of `_find_duplicates` at an unprocessed index:
the collected inner-loop indices are appended to the processed set and
recorded as pairs. -/
theorem findDupStep_mem (qs : List Question) (simM : ℕ → ℕ → ℚ)
    (ansSim : String → String → ℚ) (threshold : ℚ) (st : List ℕ × List (ℕ × ℕ)) (i : ℕ)
    (hnm : i ∉ st.1) :
    findDupStep qs simM ansSim threshold st i
      = (st.1 ++ (List.range qs.length).filter
          (fun j => decide (i < j ∧ j ∉ st.1 ∧
            areQuestionsDuplicate ansSim threshold (qs.getD i default) (qs.getD j default)
              (simM i j) = true)),
         st.2 ++ ((List.range qs.length).filter
          (fun j => decide (i < j ∧ j ∉ st.1 ∧
            areQuestionsDuplicate ansSim threshold (qs.getD i default) (qs.getD j default)
              (simM i j) = true))).map (fun j => (i, j))) := by
  rw [findDupStep, if_neg hnm]

/-- Invariants of the `_find_duplicates` scan, by induction along the
ascending outer-index list: the processed set is exactly the recorded
duplicate indices (without repetition), and every recorded pair has its
representative strictly below its duplicate, the duplicate in range, and
the representative never itself recorded as a duplicate. -/
theorem findDupFold_invariants (qs : List Question) (simM : ℕ → ℕ → ℚ)
    (ansSim : String → String → ℚ) (threshold : ℚ) :
    ∀ (l : List ℕ) (st : List ℕ × List (ℕ × ℕ)),
      l.Pairwise (· < ·) →
      st.1 = st.2.map Prod.snd →
      st.1.Nodup →
      (∀ p ∈ st.2, p.1 < p.2 ∧ p.2 < qs.length ∧ p.1 ∉ st.1) →
      (∀ p ∈ st.2, ∀ i ∈ l, p.1 < i) →
      ((l.foldl (findDupStep qs simM ansSim threshold) st).1
          = (l.foldl (findDupStep qs simM ansSim threshold) st).2.map Prod.snd ∧
       (l.foldl (findDupStep qs simM ansSim threshold) st).1.Nodup ∧
       (∀ p ∈ (l.foldl (findDupStep qs simM ansSim threshold) st).2,
          p.1 < p.2 ∧ p.2 < qs.length ∧
          p.1 ∉ (l.foldl (findDupStep qs simM ansSim threshold) st).1)) := by
  intro l
  induction l with
  | nil =>
      intro st _ h1 h2 h3 _
      exact ⟨h1, h2, h3⟩
  | cons i rest ih =>
      intro st hsort h1 h2 h3 hbound
      have hsort' : rest.Pairwise (· < ·) := hsort.of_cons
      have hirest : ∀ k ∈ rest, i < k := fun k hk => List.rel_of_pairwise_cons hsort hk
      rw [List.foldl_cons]
      by_cases hmem : i ∈ st.1
      · have hstep : findDupStep qs simM ansSim threshold st i = st := by
          rw [findDupStep, if_pos hmem]
        rw [hstep]
        exact ih st hsort' h1 h2 h3 (fun p hp k hk => hbound p hp k (List.mem_cons_of_mem i hk))
      · rw [findDupStep_mem qs simM ansSim threshold st i hmem]
        have hjprops : ∀ j ∈ (List.range qs.length).filter
            (fun j => decide (i < j ∧ j ∉ st.1 ∧
              areQuestionsDuplicate ansSim threshold (qs.getD i default) (qs.getD j default)
                (simM i j) = true)),
            i < j ∧ j ∉ st.1 ∧ j < qs.length := by
          intro j hj
          simp only [List.mem_filter, List.mem_range, decide_eq_true_eq] at hj
          exact ⟨hj.2.1, hj.2.2.1, hj.1⟩
        have hjnd : ((List.range qs.length).filter
            (fun j => decide (i < j ∧ j ∉ st.1 ∧
              areQuestionsDuplicate ansSim threshold (qs.getD i default) (qs.getD j default)
                (simM i j) = true))).Nodup :=
          (List.filter_sublist _).nodup (List.nodup_range _)
        refine ih _ hsort' ?_ ?_ ?_ ?_
        · rw [h1]
          simp [List.map_append]
        · refine List.Nodup.append h2 hjnd ?_
          intro a ha hja
          exact (hjprops a hja).2.1 ha
        · intro p hp
          rcases List.mem_append.mp hp with hold | hnew
          · obtain ⟨ha, hb, hc⟩ := h3 p hold
            refine ⟨ha, hb, ?_⟩
            intro hin
            rcases List.mem_append.mp hin with h | h
            · exact hc h
            · have := (hjprops p.1 h).1
              have := hbound p hold i (List.mem_cons_self i rest)
              omega
          · obtain ⟨j, hj, hpe⟩ := List.mem_map.mp hnew
            obtain ⟨hij, hjn, hjlen⟩ := hjprops j hj
            subst hpe
            refine ⟨hij, hjlen, ?_⟩
            intro hin
            rcases List.mem_append.mp hin with h | h
            · exact hmem h
            · have := (hjprops i h).1
              omega
        · intro p hp k hk
          rcases List.mem_append.mp hp with hold | hnew
          · exact hbound p hold k (List.mem_cons_of_mem i hk)
          · obtain ⟨j, hj, hpe⟩ := List.mem_map.mp hnew
            subst hpe
            exact hirest k hk

/-- The invariants of `findDupFold_invariants` at the top-level call. -/
theorem findDupPairs_invariants (qs : List Question) (simM : ℕ → ℕ → ℚ)
    (ansSim : String → String → ℚ) (threshold : ℚ) :
    ((findDupPairs qs simM ansSim threshold).map Prod.snd).Nodup ∧
    (∀ p ∈ findDupPairs qs simM ansSim threshold,
       p.1 < p.2 ∧ p.2 < qs.length ∧
       p.1 ∉ (findDupPairs qs simM ansSim threshold).map Prod.snd) := by
  have h := findDupFold_invariants qs simM ansSim threshold (List.range qs.length) ([], [])
    (List.pairwise_lt_range _) rfl List.nodup_nil (by simp) (by simp)
  obtain ⟨h1, h2, h3⟩ := h
  constructor
  · rw [findDupPairs, ← h1]
    exact h2
  · intro p hp
    obtain ⟨ha, hb, hc⟩ := h3 p hp
    refine ⟨ha, hb, ?_⟩
    rw [findDupPairs, ← h1]
    exact hc

/-- C10: for pairwise-distinct `question_id`s, the Detector's two outputs
partition the input: `unique_questions` is a sublist of the input (order
preserved), the lengths add up, and every input question is either kept
unique and never recorded as a duplicate, or dropped and recorded as the
`"question"` of exactly one duplicates entry. -/
theorem dedup_outputs_partition (qs : List Question) (simM : ℕ → ℕ → ℚ)
    (ansSim : String → String → ℚ) (threshold : ℚ)
    (hids : (qs.map (fun q => q.question_id)).Nodup) :
    (getUniqueQuestions qs (dupEntries qs simM ansSim threshold)).Sublist qs ∧
    (getUniqueQuestions qs (dupEntries qs simM ansSim threshold)).length
        + (dupEntries qs simM ansSim threshold).length = qs.length ∧
    ∀ q ∈ qs,
      (q ∈ getUniqueQuestions qs (dupEntries qs simM ansSim threshold) ∧
        ∀ e ∈ dupEntries qs simM ansSim threshold, e.question ≠ q) ∨
      (q ∉ getUniqueQuestions qs (dupEntries qs simM ansSim threshold) ∧
        (dupEntries qs simM ansSim threshold).countP (fun e => e.question = q) = 1) := by
  obtain ⟨hsndnd, hprops⟩ := findDupPairs_invariants qs simM ansSim threshold
  have hqnd : qs.Nodup := List.Nodup.of_map _ hids
  have hinj : ∀ m k, m < qs.length → k < qs.length →
      (qs.getD m default).question_id = (qs.getD k default).question_id → m = k := by
    intro m k hm hk h
    have hm2 : m < (qs.map (fun q => q.question_id)).length := by simpa using hm
    have hk2 : k < (qs.map (fun q => q.question_id)).length := by simpa using hk
    have h2 : (qs.map (fun q => q.question_id))[m]
        = (qs.map (fun q => q.question_id))[k] := by
      rw [List.getElem_map, List.getElem_map]
      rw [List.getD_eq_getElem _ _ hm, List.getD_eq_getElem _ _ hk] at h
      exact h
    exact (List.Nodup.getElem_inj_iff hids).mp h2
  have hsndlt : ∀ m ∈ (findDupPairs qs simM ansSim threshold).map Prod.snd,
      m < qs.length := by
    intro m hm
    obtain ⟨p, hp, hpe⟩ := List.mem_map.mp hm
    rw [← hpe]
    exact (hprops p hp).2.1
  have hdupIds : (dupEntries qs simM ansSim threshold).map (fun d => d.question.question_id)
      = ((findDupPairs qs simM ansSim threshold).map Prod.snd).map
          (fun m => (qs.getD m default).question_id) := by
    rw [dupEntries, List.map_map, List.map_map]
    rfl
  have hdupQs : (dupEntries qs simM ansSim threshold).map (fun d => d.question)
      = ((findDupPairs qs simM ansSim threshold).map Prod.snd).map
          (fun m => qs.getD m default) := by
    rw [dupEntries, List.map_map, List.map_map]
    rfl
  have hiff : ∀ q ∈ qs,
      (q.question_id ∈ (dupEntries qs simM ansSim threshold).map
          (fun d => d.question.question_id)
        ↔ ∃ m ∈ (findDupPairs qs simM ansSim threshold).map Prod.snd,
            q = qs.getD m default) := by
    intro q hq
    rw [hdupIds]
    constructor
    · intro h
      obtain ⟨m, hm, hme⟩ := List.mem_map.mp h
      obtain ⟨k, hk, hke⟩ := List.mem_iff_getElem.mp hq
      refine ⟨m, hm, ?_⟩
      have hmk : m = k := by
        refine hinj m k (hsndlt m hm) hk ?_
        rw [hme, List.getD_eq_getElem _ _ hk, hke]
      rw [hmk, List.getD_eq_getElem _ _ hk, hke]
    · rintro ⟨m, hm, hme⟩
      refine List.mem_map.mpr ⟨m, hm, ?_⟩
      rw [hme]
  refine ⟨List.filter_sublist _, ?_, ?_⟩
  · have hl1 : (dupEntries qs simM ansSim threshold).length
        = ((findDupPairs qs simM ansSim threshold).map Prod.snd).length := by
      rw [dupEntries]
      simp
    have hpartition := List.length_eq_length_filter_add (l := qs)
        (fun q => decide (q.question_id ∉ (dupEntries qs simM ansSim threshold).map
          (fun d => d.question.question_id)))
    have hbang : qs.filter (fun q => !(decide (q.question_id ∉
          (dupEntries qs simM ansSim threshold).map (fun d => d.question.question_id))))
        = qs.filter (fun q => decide (q.question_id ∈
          (dupEntries qs simM ansSim threshold).map (fun d => d.question.question_id))) := by
      congr 1
      funext q
      rw [decide_not, Bool.not_not]
    have hnd1 : (qs.filter (fun q => decide (q.question_id ∈
        (dupEntries qs simM ansSim threshold).map (fun d => d.question.question_id)))).Nodup :=
      (List.filter_sublist _).nodup hqnd
    have hnd2 : (((findDupPairs qs simM ansSim threshold).map Prod.snd).map
        (fun m => qs.getD m default)).Nodup := by
      refine List.Nodup.map_on ?_ hsndnd
      intro m hm k hk he
      exact hinj m k (hsndlt m hm) (hsndlt k hk) (by rw [he])
    have hsub1 : qs.filter (fun q => decide (q.question_id ∈
          (dupEntries qs simM ansSim threshold).map (fun d => d.question.question_id)))
        ⊆ ((findDupPairs qs simM ansSim threshold).map Prod.snd).map
          (fun m => qs.getD m default) := by
      intro x hx
      obtain ⟨hxq, hxp'⟩ := List.mem_filter.mp hx
      rw [decide_eq_true_eq] at hxp'
      obtain ⟨m, hm, hme⟩ := (hiff x hxq).mp hxp'
      exact List.mem_map.mpr ⟨m, hm, hme.symm⟩
    have hsub2 : ((findDupPairs qs simM ansSim threshold).map Prod.snd).map
          (fun m => qs.getD m default)
        ⊆ qs.filter (fun q => decide (q.question_id ∈
          (dupEntries qs simM ansSim threshold).map (fun d => d.question.question_id))) := by
      intro x hx
      obtain ⟨m, hm, hme⟩ := List.mem_map.mp hx
      have hmlt := hsndlt m hm
      have hxq : x ∈ qs := by
        rw [← hme, List.getD_eq_getElem _ _ hmlt]
        exact List.getElem_mem hmlt
      refine List.mem_filter.mpr ⟨hxq, ?_⟩
      simp only [decide_eq_true_eq]
      exact (hiff x hxq).mpr ⟨m, hm, hme.symm⟩
    have hperm := (List.subperm_of_subset hnd1 hsub1).antisymm
      (List.subperm_of_subset hnd2 hsub2)
    have hlp := hperm.length_eq
    rw [hbang] at hpartition
    rw [getUniqueQuestions]
    simp only [List.length_map] at hlp hl1 ⊢
    omega
  · intro q hq
    by_cases hqid : q.question_id ∈ (dupEntries qs simM ansSim threshold).map
        (fun d => d.question.question_id)
    · right
      constructor
      · rw [getUniqueQuestions]
        intro hmem
        obtain ⟨_, hp'⟩ := List.mem_filter.mp hmem
        rw [decide_eq_true_eq] at hp'
        exact hp' hqid
      · obtain ⟨m0, hm0, hm0e⟩ := (hiff q hq).mp hqid
        have hc1 : (dupEntries qs simM ansSim threshold).countP
              (fun e => decide (e.question = q))
            = ((findDupPairs qs simM ansSim threshold).map Prod.snd).countP
              (fun m => decide (qs.getD m default = q)) := by
          rw [dupEntries, List.countP_map, List.countP_map]
          rfl
        have hc2 : ((findDupPairs qs simM ansSim threshold).map Prod.snd).countP
              (fun m => decide (qs.getD m default = q))
            = ((findDupPairs qs simM ansSim threshold).map Prod.snd).countP
              (fun m => m == m0) := by
          refine List.countP_congr ?_
          intro m hm
          simp only [decide_eq_true_eq, beq_iff_eq]
          constructor
          · intro he
            exact hinj m m0 (hsndlt m hm) (hsndlt m0 hm0) (by rw [he, hm0e])
          · intro he
            subst he
            exact hm0e.symm
        have hc3 : ((findDupPairs qs simM ansSim threshold).map Prod.snd).countP
            (fun m => m == m0) = 1 := by
          have hcount := List.count_eq_one_of_mem hsndnd hm0
          rw [List.count_eq_countP] at hcount
          exact hcount
        exact hc1.trans (hc2.trans hc3)
    · left
      constructor
      · rw [getUniqueQuestions]
        refine List.mem_filter.mpr ⟨hq, ?_⟩
        simp only [decide_eq_true_eq]
        exact hqid
      · intro e he heq
        apply hqid
        rw [← heq]
        exact List.mem_map.mpr ⟨e, he, rfl⟩

/-- C3: every recorded duplicate pair has the representative at a strictly
lower original index than the duplicate, the representative is never
itself recorded as a duplicate (so the earliest-seen question of each
group is the kept one), and the duplicates list records the pair's
question under the representative's `question_id` with the matrix
similarity. -/
theorem find_duplicates_rep_lowest (qs : List Question) (simM : ℕ → ℕ → ℚ)
    (ansSim : String → String → ℚ) (threshold : ℚ) (p : ℕ × ℕ)
    (hp : p ∈ findDupPairs qs simM ansSim threshold) :
    p.1 < p.2 ∧ p.2 < qs.length ∧
    p.1 ∉ (findDupPairs qs simM ansSim threshold).map Prod.snd ∧
    (⟨qs.getD p.2 default, (qs.getD p.1 default).question_id, simM p.1 p.2,
      "semantic_similarity"⟩ : DupEntry) ∈ dupEntries qs simM ansSim threshold := by
  obtain ⟨hnd, hprops⟩ := findDupPairs_invariants qs simM ansSim threshold
  obtain ⟨ha, hb, hc⟩ := hprops p hp
  exact ⟨ha, hb, hc, List.mem_map.mpr ⟨p, hp, rfl⟩⟩

set_option maxRecDepth 100000 in
unseal Rat.mul Rat.add Rat.inv in
/-- Witness for `find_duplicates_rep_lowest` at a two-question run that
records the pair `(0, 1)`. -/
theorem find_duplicates_rep_lowest_witness :
    (((0 : ℕ), (1 : ℕ)) ∈ findDupPairs [qFailA, qFailB] (fun _ _ => (1 : ℚ)) ansOne (17/20)) ∧
    (((0 : ℕ), (1 : ℕ)).1 < ((0 : ℕ), (1 : ℕ)).2 ∧
     ((0 : ℕ), (1 : ℕ)).2 < ([qFailA, qFailB] : List Question).length ∧
     ((0 : ℕ), (1 : ℕ)).1 ∉ (findDupPairs [qFailA, qFailB] (fun _ _ => (1 : ℚ)) ansOne
        (17/20)).map Prod.snd ∧
     (⟨([qFailA, qFailB] : List Question).getD ((0 : ℕ), (1 : ℕ)).2 default,
       (([qFailA, qFailB] : List Question).getD ((0 : ℕ), (1 : ℕ)).1 default).question_id,
       (fun _ _ => (1 : ℚ)) ((0 : ℕ), (1 : ℕ)).1 ((0 : ℕ), (1 : ℕ)).2,
       "semantic_similarity"⟩ : DupEntry)
        ∈ dupEntries [qFailA, qFailB] (fun _ _ => (1 : ℚ)) ansOne (17/20)) :=
  ⟨by decide,
   find_duplicates_rep_lowest [qFailA, qFailB] (fun _ _ => (1 : ℚ)) ansOne (17/20)
     ((0 : ℕ), (1 : ℕ)) (by decide)⟩

set_option maxRecDepth 100000 in
unseal Rat.mul Rat.add Rat.inv in
/-- Witness for `dedup_outputs_partition` on a two-question run with one
actual duplicate. -/
theorem dedup_outputs_partition_witness :
    ((([qFailA, qFailB] : List Question).map (fun q => q.question_id)).Nodup) ∧
    ((getUniqueQuestions [qFailA, qFailB]
        (dupEntries [qFailA, qFailB] (fun _ _ => (1 : ℚ)) ansOne (17/20))).Sublist
          [qFailA, qFailB] ∧
     (getUniqueQuestions [qFailA, qFailB]
        (dupEntries [qFailA, qFailB] (fun _ _ => (1 : ℚ)) ansOne (17/20))).length
        + (dupEntries [qFailA, qFailB] (fun _ _ => (1 : ℚ)) ansOne (17/20)).length
        = ([qFailA, qFailB] : List Question).length ∧
     ∀ q ∈ ([qFailA, qFailB] : List Question),
       (q ∈ getUniqueQuestions [qFailA, qFailB]
            (dupEntries [qFailA, qFailB] (fun _ _ => (1 : ℚ)) ansOne (17/20)) ∧
         ∀ e ∈ dupEntries [qFailA, qFailB] (fun _ _ => (1 : ℚ)) ansOne (17/20),
            e.question ≠ q) ∨
       (q ∉ getUniqueQuestions [qFailA, qFailB]
            (dupEntries [qFailA, qFailB] (fun _ _ => (1 : ℚ)) ansOne (17/20)) ∧
         (dupEntries [qFailA, qFailB] (fun _ _ => (1 : ℚ)) ansOne (17/20)).countP
            (fun e => e.question = q) = 1)) :=
  ⟨by decide,
   dedup_outputs_partition [qFailA, qFailB] (fun _ _ => (1 : ℚ)) ansOne (17/20) (by decide)⟩

/-- The processed set of the `_find_duplicates` scan only grows. -/
theorem findDupFold_mono (qs : List Question) (simM : ℕ → ℕ → ℚ)
    (ansSim : String → String → ℚ) (threshold : ℚ) :
    ∀ (l : List ℕ) (st : List ℕ × List (ℕ × ℕ)),
      st.1 ⊆ (l.foldl (findDupStep qs simM ansSim threshold) st).1 := by
  intro l
  induction l with
  | nil => intro st; exact fun a ha => ha
  | cons i rest ih =>
      intro st
      rw [List.foldl_cons]
      by_cases hmem : i ∈ st.1
      · have hstep : findDupStep qs simM ansSim threshold st i = st := by
          rw [findDupStep, if_pos hmem]
        rw [hstep]
        exact ih st
      · rw [findDupStep_mem qs simM ansSim threshold st i hmem]
        intro a ha
        exact ih _ (List.mem_append_left _ ha)

/-- If an outer index `u` survives the whole scan unprocessed and so does
a later in-range index `v`, then the pair `(u, v)` was tested and found
not duplicate: had it passed, `v` would have been marked processed at the
iteration of `u`. -/
theorem findDupFold_scan (qs : List Question) (simM : ℕ → ℕ → ℚ)
    (ansSim : String → String → ℚ) (threshold : ℚ) :
    ∀ (l : List ℕ) (st : List ℕ × List (ℕ × ℕ)) (u v : ℕ),
      u ∈ l → u < v → v < qs.length →
      u ∉ (l.foldl (findDupStep qs simM ansSim threshold) st).1 →
      v ∉ (l.foldl (findDupStep qs simM ansSim threshold) st).1 →
      areQuestionsDuplicate ansSim threshold (qs.getD u default) (qs.getD v default)
        (simM u v) = false := by
  intro l
  induction l with
  | nil => intro st u v hu; exact absurd hu (List.not_mem_nil u)
  | cons i rest ih =>
      intro st u v hu huv hvlen hufin hvfin
      rw [List.foldl_cons] at hufin hvfin
      rcases List.mem_cons.mp hu with hui | hur
      · subst hui
        by_cases hmem : u ∈ st.1
        · exfalso
          have hstep : findDupStep qs simM ansSim threshold st u = st := by
            rw [findDupStep, if_pos hmem]
          rw [hstep] at hufin
          exact hufin (findDupFold_mono qs simM ansSim threshold rest st hmem)
        · rw [findDupStep_mem qs simM ansSim threshold st u hmem] at hvfin
          by_contra hdup
          rw [Bool.not_eq_false] at hdup
          have hvjs : v ∈ (List.range qs.length).filter
              (fun j => decide (u < j ∧ j ∉ st.1 ∧
                areQuestionsDuplicate ansSim threshold (qs.getD u default) (qs.getD j default)
                  (simM u j) = true)) := by
            refine List.mem_filter.mpr ⟨List.mem_range.mpr hvlen, ?_⟩
            refine decide_eq_true ?_
            refine ⟨huv, ?_, hdup⟩
            intro hvst
            exact hvfin (findDupFold_mono qs simM ansSim threshold rest _
              (List.mem_append_left _ hvst))
          apply hvfin
          exact findDupFold_mono qs simM ansSim threshold rest _
            (List.mem_append_right _ hvjs)
      · exact ih _ u v hur huv hvlen hufin hvfin

/-- No two questions of one run's `unique_questions` output are judged
duplicates (in input order, under the same deterministic text
similarity): each surviving pair was compared and rejected during the
run. -/
theorem dedupCore_pairwise (simT : String → String → ℚ) (ansSim : String → String → ℚ)
    (threshold : ℚ) (qs : List Question) :
    (dedupCore simT ansSim threshold qs).Pairwise (fun a b =>
      areQuestionsDuplicate ansSim threshold a b (simT a.question_text b.question_text)
        = false) := by
  obtain ⟨h1, _, _⟩ := findDupFold_invariants qs (textSimM qs simT) ansSim threshold
    (List.range qs.length) ([], []) (List.pairwise_lt_range _) rfl List.nodup_nil
    (by simp) (by simp)
  have hids : ((findDupPairsT qs simT ansSim threshold).map
      (fun p => (⟨qs.getD p.2 default, (qs.getD p.1 default).question_id,
        textSimM qs simT p.1 p.2, "semantic_similarity"⟩ : DupEntry))).map
          (fun d => d.question.question_id)
      = ((findDupPairsT qs simT ansSim threshold).map Prod.snd).map
          (fun m => (qs.getD m default).question_id) := by
    rw [List.map_map, List.map_map]
    rfl
  have hP : qs.Pairwise (fun a b =>
      (a.question_id ∉ ((findDupPairsT qs simT ansSim threshold).map
        (fun p => (⟨qs.getD p.2 default, (qs.getD p.1 default).question_id,
          textSimM qs simT p.1 p.2, "semantic_similarity"⟩ : DupEntry))).map
            (fun d => d.question.question_id)) →
      (b.question_id ∉ ((findDupPairsT qs simT ansSim threshold).map
        (fun p => (⟨qs.getD p.2 default, (qs.getD p.1 default).question_id,
          textSimM qs simT p.1 p.2, "semantic_similarity"⟩ : DupEntry))).map
            (fun d => d.question.question_id)) →
      areQuestionsDuplicate ansSim threshold a b (simT a.question_text b.question_text)
        = false) := by
    refine List.pairwise_iff_getElem.mpr ?_
    intro i j hi hj hij ha hb
    rw [hids] at ha hb
    have hnosnd : ∀ m (hm : m < qs.length),
        (qs[m]).question_id ∉ ((findDupPairsT qs simT ansSim threshold).map
          Prod.snd).map (fun k => (qs.getD k default).question_id) →
        m ∉ (findDupPairsT qs simT ansSim threshold).map Prod.snd := by
      intro m hm hnid hmem
      apply hnid
      refine List.mem_map.mpr ⟨m, hmem, ?_⟩
      rw [List.getD_eq_getElem _ _ hm]
    have hui : i ∉ (findDupPairsT qs simT ansSim threshold).map Prod.snd :=
      hnosnd i hi ha
    have hvj : j ∉ (findDupPairsT qs simT ansSim threshold).map Prod.snd :=
      hnosnd j hj hb
    have hscan := findDupFold_scan qs (textSimM qs simT) ansSim threshold
      (List.range qs.length) ([], []) i j (List.mem_range.mpr hi) hij hj
      (by rw [show ((List.range qs.length).foldl
            (findDupStep qs (textSimM qs simT) ansSim threshold) ([], [])).1
          = (findDupPairsT qs simT ansSim threshold).map Prod.snd from h1]
          exact hui)
      (by rw [show ((List.range qs.length).foldl
            (findDupStep qs (textSimM qs simT) ansSim threshold) ([], [])).1
          = (findDupPairsT qs simT ansSim threshold).map Prod.snd from h1]
          exact hvj)
    have ht : textSimM qs simT i j
        = simT (qs[i]).question_text ((qs[j]).question_text) := by
      rw [textSimM, List.getD_eq_getElem _ _ hi, List.getD_eq_getElem _ _ hj]
    rw [List.getD_eq_getElem _ _ hi, List.getD_eq_getElem _ _ hj, ht] at hscan
    exact hscan
  have hPsub : (dedupCore simT ansSim threshold qs).Pairwise (fun a b =>
      (a.question_id ∉ ((findDupPairsT qs simT ansSim threshold).map
        (fun p => (⟨qs.getD p.2 default, (qs.getD p.1 default).question_id,
          textSimM qs simT p.1 p.2, "semantic_similarity"⟩ : DupEntry))).map
            (fun d => d.question.question_id)) →
      (b.question_id ∉ ((findDupPairsT qs simT ansSim threshold).map
        (fun p => (⟨qs.getD p.2 default, (qs.getD p.1 default).question_id,
          textSimM qs simT p.1 p.2, "semantic_similarity"⟩ : DupEntry))).map
            (fun d => d.question.question_id)) →
      areQuestionsDuplicate ansSim threshold a b (simT a.question_text b.question_text)
        = false) := hP.sublist (List.filter_sublist _)
  refine List.Pairwise.imp_of_mem ?_ hPsub
  intro a b ha hb himp
  obtain ⟨_, hpa⟩ := List.mem_filter.mp ha
  obtain ⟨_, hpb⟩ := List.mem_filter.mp hb
  rw [decide_eq_true_eq] at hpa hpb
  exact himp hpa hpb

/-- A list that is pairwise non-duplicate yields an empty duplicates
list. -/
theorem findDupPairsT_nil_of_pairwise (simT : String → String → ℚ)
    (ansSim : String → String → ℚ) (threshold : ℚ) (l : List Question)
    (h : l.Pairwise (fun a b =>
      areQuestionsDuplicate ansSim threshold a b (simT a.question_text b.question_text)
        = false)) :
    findDupPairsT l simT ansSim threshold = [] := by
  refine findDupPairs_eq_nil l _ ansSim threshold ?_
  intro i j hij hj
  have hi : i < l.length := lt_trans hij hj
  have hpw := List.pairwise_iff_getElem.mp h i j hi hj hij
  have ht : textSimM l simT i j
      = simT (l[i]).question_text ((l[j]).question_text) := by
    rw [textSimM, List.getD_eq_getElem _ _ hi, List.getD_eq_getElem _ _ hj]
  rw [List.getD_eq_getElem _ _ hi, List.getD_eq_getElem _ _ hj, ht]
  exact hpw

/-- C4: under a deterministic embedding collaborator, running the
Duplicate Detector on its own `unique_questions` output removes nothing:
the second run records no duplicate pair, and its `unique_questions`
equals its input list unchanged. -/
theorem dedup_unique_idempotent (simT : String → String → ℚ)
    (ansSim : String → String → ℚ) (threshold : ℚ) (qs : List Question) :
    findDupPairsT (dedupCore simT ansSim threshold qs) simT ansSim threshold = [] ∧
    dedupCore simT ansSim threshold (dedupCore simT ansSim threshold qs)
      = dedupCore simT ansSim threshold qs := by
  have hnil := findDupPairsT_nil_of_pairwise simT ansSim threshold _
    (dedupCore_pairwise simT ansSim threshold qs)
  refine ⟨hnil, ?_⟩
  conv_lhs => rw [dedupCore]
  rw [hnil, getUniqueQuestions]
  simp

/-- The `_clean_subtopics` fold keeps its `seen` set equal to the
lowercased cleaned list and the cleaned list free of repeats. -/
theorem cleanSubtopics_fold (l : List String) :
    ∀ acc : List String × List String, acc.1 = acc.2.map pyLower → acc.2.Nodup →
      (l.foldl cleanStep acc).1 = ((l.foldl cleanStep acc).2).map pyLower ∧
      ((l.foldl cleanStep acc).2).Nodup := by
  induction l with
  | nil => intro acc h1 h2; exact ⟨h1, h2⟩
  | cons raw rest ih =>
      intro acc h1 h2
      rw [List.foldl_cons]
      by_cases hc : normalizeWhitespace (pyStrip raw) ≠ "" ∧
          2 ≤ (normalizeWhitespace (pyStrip raw)).length ∧
          (normalizeWhitespace (pyStrip raw)).length ≤ 100 ∧
          pyLower (normalizeWhitespace (pyStrip raw)) ∉ acc.1
      · have hstep : cleanStep acc raw
            = (acc.1 ++ [pyLower (normalizeWhitespace (pyStrip raw))],
               acc.2 ++ [normalizeWhitespace (pyStrip raw)]) := by
          rw [cleanStep]
          simp only [if_pos hc]
        rw [hstep]
        refine ih _ ?_ ?_
        · simp [h1]
        · refine List.Nodup.append h2 (List.nodup_singleton _) ?_
          intro a ha hb
          rw [List.mem_singleton] at hb
          subst hb
          exact hc.2.2.2 (h1 ▸ List.mem_map_of_mem pyLower ha)
      · have hstep : cleanStep acc raw = acc := by
          rw [cleanStep]
          simp only [if_neg hc]
        rw [hstep]
        exact ih acc h1 h2

/-- Cleaned subtopic lists contain no repeats (dedup is case-insensitive,
so in particular the strings are pairwise distinct). -/
theorem cleanSubtopics_nodup (l : List String) : (cleanSubtopics l).Nodup :=
  (cleanSubtopics_fold l ([], []) rfl List.nodup_nil).2

/-- Splitting one occurrence off a count. -/
theorem count_cons_split (a s : String) (l : List String) :
    (a :: l).count s = l.count s + ([a] : List String).count s := by
  simp [List.count_cons, List.count_singleton]

/-- Appending a subtopic to one cluster leaves the label list unchanged. -/
theorem mapFst_clusterUpdate (acc : List (ℕ × List String)) (ℓ : ℕ) (x : String) :
    ((acc.map (fun c => if c.1 = ℓ then (c.1, c.2 ++ [x]) else c)).map Prod.fst)
      = acc.map Prod.fst := by
  rw [List.map_map]
  refine List.map_congr_left ?_
  intro c _
  by_cases hc : c.1 = ℓ
  · simp [hc]
  · simp [hc]

/-- Appending a subtopic to the (unique) cluster of an existing label adds
exactly that one occurrence to the flattened membership. -/
theorem flatMap_clusterUpdate_count (ℓ : ℕ) (x : String) (s : String) :
    ∀ acc : List (ℕ × List String), (acc.map Prod.fst).Nodup → ℓ ∈ acc.map Prod.fst →
      ((acc.map (fun c => if c.1 = ℓ then (c.1, c.2 ++ [x]) else c)).flatMap
        (fun c => c.2)).count s
      = (acc.flatMap (fun c => c.2)).count s + ([x] : List String).count s := by
  intro acc
  induction acc with
  | nil => intro _ h; exact absurd h (List.not_mem_nil ℓ)
  | cons c cs ih =>
      intro hnd hmem
      by_cases hc : c.1 = ℓ
      · have htail : cs.map (fun c => if c.1 = ℓ then (c.1, c.2 ++ [x]) else c)
            = cs.map id := by
          refine List.map_congr_left ?_
          intro d hd
          have hne : d.1 ≠ ℓ := by
            intro he
            have hml : ℓ ∈ cs.map Prod.fst := he ▸ List.mem_map_of_mem Prod.fst hd
            rw [List.map_cons] at hnd
            exact (List.nodup_cons.mp hnd).1 (hc ▸ hml)
          simp [hne]
        rw [List.map_cons, htail, List.map_id]
        simp only [if_pos hc, List.flatMap_cons]
        rw [List.count_append, List.count_append, List.count_append]
        omega
      · rw [List.map_cons]
        simp only [if_neg hc, List.flatMap_cons]
        rw [List.count_append, List.count_append]
        have hmem2 : ℓ ∈ cs.map Prod.fst := by
          rw [List.map_cons, List.mem_cons] at hmem
          rcases hmem with h | h
          · exact absurd h.symm hc
          · exact h
        have hnd2 : (cs.map Prod.fst).Nodup := by
          rw [List.map_cons] at hnd
          exact (List.nodup_cons.mp hnd).2
        rw [ih hnd2 hmem2]
        omega

/-- The `_cluster_subtopics` fold keeps cluster labels distinct and makes
the flattened cluster membership carry each zipped subtopic exactly as
often as it arrives. -/
theorem clusterFold_spec (s : String) :
    ∀ (ps : List (String × ℕ)) (acc : List (ℕ × List String)),
      (acc.map Prod.fst).Nodup →
      (((ps.foldl clusterStep acc).map Prod.fst).Nodup ∧
       ((ps.foldl clusterStep acc).flatMap (fun c => c.2)).count s
         = (acc.flatMap (fun c => c.2)).count s + (ps.map Prod.fst).count s) := by
  intro ps
  induction ps with
  | nil => intro acc hnd; simp [hnd]
  | cons p rest ih =>
      intro acc hnd
      rw [List.foldl_cons]
      by_cases hex : acc.any (fun c => c.1 = p.2)
      · have hstep : clusterStep acc p
            = acc.map (fun c => if c.1 = p.2 then (c.1, c.2 ++ [p.1]) else c) := by
          rw [clusterStep, if_pos hex]
        have hmem : p.2 ∈ acc.map Prod.fst := by
          obtain ⟨c, hc, hce⟩ := List.any_eq_true.mp hex
          rw [decide_eq_true_eq] at hce
          exact hce ▸ List.mem_map_of_mem Prod.fst hc
        rw [hstep]
        have hnd2 : ((acc.map (fun c => if c.1 = p.2 then (c.1, c.2 ++ [p.1]) else c)).map
            Prod.fst).Nodup := by
          rw [mapFst_clusterUpdate]
          exact hnd
        obtain ⟨ha, hb⟩ := ih _ hnd2
        refine ⟨ha, ?_⟩
        rw [hb, flatMap_clusterUpdate_count p.2 p.1 s acc hnd hmem]
        rw [List.map_cons,
          show ((p.1 :: List.map Prod.fst rest).count s)
            = (List.map Prod.fst rest).count s + ([p.1] : List String).count s
          from count_cons_split p.1 s _]
        omega
      · have hstep : clusterStep acc p = acc ++ [(p.2, [p.1])] := by
          rw [clusterStep, if_neg hex]
        have hnotmem : p.2 ∉ acc.map Prod.fst := by
          intro hm
          obtain ⟨c, hc, hce⟩ := List.mem_map.mp hm
          exact (List.any_eq_true.not.mp hex) ⟨c, hc, decide_eq_true hce⟩
        rw [hstep]
        have hnd2 : (((acc ++ [(p.2, [p.1])]) : List (ℕ × List String)).map Prod.fst).Nodup := by
          rw [List.map_append]
          refine List.Nodup.append hnd (List.nodup_singleton _) ?_
          intro a ha hb
          rw [List.map_singleton, List.mem_singleton] at hb
          subst hb
          exact hnotmem ha
        obtain ⟨ha, hb⟩ := ih _ hnd2
        refine ⟨ha, ?_⟩
        rw [hb, List.flatMap_append, List.count_append]
        rw [List.map_cons,
          show ((p.1 :: List.map Prod.fst rest).count s)
            = (List.map Prod.fst rest).count s + ([p.1] : List String).count s
          from count_cons_split p.1 s _]
        simp only [List.flatMap_cons, List.flatMap_nil, List.append_nil]
        omega

/-- Topic insertion permutes. -/
theorem insertTopicDesc_perm (x : NormalizedTopic) (l : List NormalizedTopic) :
    (insertTopicDesc x l).Perm (x :: l) := by
  induction l with
  | nil => simp [insertTopicDesc]
  | cons y ys ih =>
      by_cases hc : x.subtopic_count < y.subtopic_count
      · rw [insertTopicDesc, if_pos hc]
        exact (ih.cons y).trans (List.Perm.swap x y ys)
      · rw [insertTopicDesc, if_neg hc]

/-- The by-size topic sort is a permutation. -/
theorem sortTopicsDesc_perm (l : List NormalizedTopic) : (sortTopicsDesc l).Perm l := by
  induction l with
  | nil => simp [sortTopicsDesc]
  | cons x xs ih =>
      rw [sortTopicsDesc]
      exact (insertTopicDesc_perm x (sortTopicsDesc xs)).trans (ih.cons x)

/-- Skipping empty clusters does not change the flattened membership. -/
theorem flatMap_filter_nonempty (cs : List (ℕ × List String)) :
    ((cs.filter (fun c => ¬ c.2.isEmpty)).flatMap (fun c => c.2))
      = cs.flatMap (fun c => c.2) := by
  induction cs with
  | nil => rfl
  | cons c rest ih =>
      by_cases hc : c.2.isEmpty
      · have hfalse : (decide ¬ c.2.isEmpty = true) = false := by
          simp [hc]
        rw [List.filter_cons, hfalse]
        simp only [Bool.false_eq_true, if_false]
        rw [ih, List.flatMap_cons, List.isEmpty_iff.mp hc]
        rfl
      · have htrue : (decide ¬ c.2.isEmpty = true) = true := by
          simp [hc]
        rw [List.filter_cons, htrue, if_pos rfl, List.flatMap_cons, List.flatMap_cons, ih]

/-- The subtopic lists of the created topics are, in the aggregate, a
permutation of the flattened cluster membership. -/
theorem createNormalizedTopics_flatMap_perm (nameF : List String → String)
    (repF : List String → String) (cohesionF : List String → ℚ)
    (clusters : List (ℕ × List String)) :
    ((createNormalizedTopics nameF repF cohesionF clusters).flatMap
        (fun t => t.subtopics)).Perm (clusters.flatMap (fun c => c.2)) := by
  rw [createNormalizedTopics]
  have hperm := sortTopicsDesc_perm ((clusters.filter (fun c => ¬ c.2.isEmpty)).map (fun c =>
    ({ topic_id := "topic_" ++ pad3 (c.1 + 1)
       topic_name := nameF c.2
       subtopics := c.2
       subtopic_count := c.2.length
       representative_subtopic := repF c.2
       cluster_id := some c.1
       statistics := calculateClusterStats cohesionF c.2 } : NormalizedTopic)))
  have h1 : ((sortTopicsDesc ((clusters.filter (fun c => ¬ c.2.isEmpty)).map (fun c =>
      ({ topic_id := "topic_" ++ pad3 (c.1 + 1)
         topic_name := nameF c.2
         subtopics := c.2
         subtopic_count := c.2.length
         representative_subtopic := repF c.2
         cluster_id := some c.1
         statistics := calculateClusterStats cohesionF c.2 } : NormalizedTopic)))).flatMap
        (fun t => t.subtopics)).Perm
      ((((clusters.filter (fun c => ¬ c.2.isEmpty)).map (fun c =>
      ({ topic_id := "topic_" ++ pad3 (c.1 + 1)
         topic_name := nameF c.2
         subtopics := c.2
         subtopic_count := c.2.length
         representative_subtopic := repF c.2
         cluster_id := some c.1
         statistics := calculateClusterStats cohesionF c.2 } : NormalizedTopic)))).flatMap
        (fun t => t.subtopics)) := by
    rw [List.flatMap_def, List.flatMap_def]
    exact (hperm.map (fun t => t.subtopics)).flatten
  have h2 : (((clusters.filter (fun c => ¬ c.2.isEmpty)).map (fun c =>
      ({ topic_id := "topic_" ++ pad3 (c.1 + 1)
         topic_name := nameF c.2
         subtopics := c.2
         subtopic_count := c.2.length
         representative_subtopic := repF c.2
         cluster_id := some c.1
         statistics := calculateClusterStats cohesionF c.2 } : NormalizedTopic)))).flatMap
        (fun t => t.subtopics)
      = (clusters.filter (fun c => ¬ c.2.isEmpty)).flatMap (fun c => c.2) := by
    rw [List.flatMap_map]
  rw [h2] at h1
  rw [flatMap_filter_nonempty] at h1
  exact h1

/-- When the flattened membership holds a subtopic at most once, only one
topic can contain it. -/
theorem mem_flatMap_unique (s : String) :
    ∀ ts : List NormalizedTopic,
      (ts.flatMap (fun t => t.subtopics)).count s ≤ 1 →
      ∀ t₁ ∈ ts, ∀ t₂ ∈ ts, s ∈ t₁.subtopics → s ∈ t₂.subtopics → t₁ = t₂ := by
  intro ts
  induction ts with
  | nil => intro _ t₁ h; exact absurd h (List.not_mem_nil t₁)
  | cons t rest ih =>
      intro hcount t₁ ht₁ t₂ ht₂ hs₁ hs₂
      rw [List.flatMap_cons, List.count_append] at hcount
      rcases List.mem_cons.mp ht₁ with h₁ | h₁ <;> rcases List.mem_cons.mp ht₂ with h₂ | h₂
      · rw [h₁, h₂]
      · exfalso
        subst h₁
        have hc1 : 1 ≤ t₁.subtopics.count s := List.one_le_count_iff.mpr hs₁
        have hc2 : 1 ≤ (rest.flatMap (fun t => t.subtopics)).count s :=
          List.one_le_count_iff.mpr (List.mem_flatMap.mpr ⟨t₂, h₂, hs₂⟩)
        omega
      · exfalso
        subst h₂
        have hc1 : 1 ≤ t₂.subtopics.count s := List.one_le_count_iff.mpr hs₂
        have hc2 : 1 ≤ (rest.flatMap (fun t => t.subtopics)).count s :=
          List.one_le_count_iff.mpr (List.mem_flatMap.mpr ⟨t₁, h₁, hs₁⟩)
        omega
      · exact ih (by omega) t₁ h₁ t₂ h₂ hs₁ hs₂

/-- Assigning to an existing key leaves the key list unchanged. -/
theorem dictInsert_keys_of_mem (m : List (String × String)) (k v : String)
    (h : k ∈ m.map Prod.fst) : (dictInsert m k v).map Prod.fst = m.map Prod.fst := by
  have hany : m.any (fun p => p.1 = k) = true := by
    obtain ⟨p, hp, hpe⟩ := List.mem_map.mp h
    exact List.any_eq_true.mpr ⟨p, hp, decide_eq_true hpe⟩
  rw [dictInsert, if_pos hany, List.map_map]
  refine List.map_congr_left ?_
  intro p _
  by_cases hp : p.1 = k
  · simp [hp]
  · simp [hp]

/-- Assigning to a fresh key appends it. -/
theorem dictInsert_keys_of_not_mem (m : List (String × String)) (k v : String)
    (h : k ∉ m.map Prod.fst) : (dictInsert m k v).map Prod.fst = m.map Prod.fst ++ [k] := by
  have hany : ¬ (m.any (fun p => p.1 = k) = true) := by
    intro ha
    obtain ⟨p, hp, hpe⟩ := List.any_eq_true.mp ha
    rw [decide_eq_true_eq] at hpe
    exact h (hpe ▸ List.mem_map_of_mem Prod.fst hp)
  rw [dictInsert, if_neg hany, List.map_append]
  rfl

/-- Folding one topic's subtopics into the mapping keeps the keys distinct
and extends the key set by exactly those subtopics. -/
theorem dictFoldTopic_keys (name : String) :
    ∀ (ks : List String) (m : List (String × String)), (m.map Prod.fst).Nodup →
      (((ks.foldl (fun m' st => dictInsert m' st name) m).map Prod.fst).Nodup ∧
       ∀ s, s ∈ (ks.foldl (fun m' st => dictInsert m' st name) m).map Prod.fst ↔
          s ∈ m.map Prod.fst ∨ s ∈ ks) := by
  intro ks
  induction ks with
  | nil =>
      intro m hnd
      exact ⟨hnd, fun s => by simp⟩
  | cons k rest ih =>
      intro m hnd
      rw [List.foldl_cons]
      by_cases hk : k ∈ m.map Prod.fst
      · have hkeys := dictInsert_keys_of_mem m k name hk
        have hnd2 : ((dictInsert m k name).map Prod.fst).Nodup := by
          rw [hkeys]; exact hnd
        obtain ⟨ha, hb⟩ := ih (dictInsert m k name) hnd2
        refine ⟨ha, ?_⟩
        intro s
        rw [hb s, hkeys]
        constructor
        · rintro (h | h)
          · exact Or.inl h
          · exact Or.inr (List.mem_cons_of_mem k h)
        · rintro (h | h)
          · exact Or.inl h
          · rcases List.mem_cons.mp h with he | h
            · exact Or.inl (he ▸ hk)
            · exact Or.inr h
      · have hkeys := dictInsert_keys_of_not_mem m k name hk
        have hnd2 : ((dictInsert m k name).map Prod.fst).Nodup := by
          rw [hkeys]
          refine List.Nodup.append hnd (List.nodup_singleton _) ?_
          intro a ha hb
          rw [List.mem_singleton] at hb
          exact hk (hb ▸ ha)
        obtain ⟨ha, hb⟩ := ih (dictInsert m k name) hnd2
        refine ⟨ha, ?_⟩
        intro s
        rw [hb s, hkeys]
        constructor
        · rintro (h | h)
          · rcases List.mem_append.mp h with h | h
            · exact Or.inl h
            · rw [List.mem_singleton] at h
              exact Or.inr (h ▸ List.mem_cons_self k rest)
          · exact Or.inr (List.mem_cons_of_mem k h)
        · rintro (h | h)
          · exact Or.inl (List.mem_append_left _ h)
          · rcases List.mem_cons.mp h with he | h
            · exact Or.inl (List.mem_append_right _ (he ▸ List.mem_singleton_self k))
            · exact Or.inr h

/-- Folding all topics into the mapping keeps the keys distinct and
extends the key set by the flattened topic membership. -/
theorem createTopicMapping_fold_keys :
    ∀ (topics : List NormalizedTopic) (m : List (String × String)),
      (m.map Prod.fst).Nodup →
      (((topics.foldl (fun m t => t.subtopics.foldl
          (fun m' st => dictInsert m' st t.topic_name) m) m).map Prod.fst).Nodup ∧
       ∀ s, s ∈ (topics.foldl (fun m t => t.subtopics.foldl
          (fun m' st => dictInsert m' st t.topic_name) m) m).map Prod.fst ↔
          s ∈ m.map Prod.fst ∨ s ∈ topics.flatMap (fun t => t.subtopics)) := by
  intro topics
  induction topics with
  | nil =>
      intro m hnd
      exact ⟨hnd, fun s => by simp⟩
  | cons t rest ih =>
      intro m hnd
      rw [List.foldl_cons]
      obtain ⟨ha1, hb1⟩ := dictFoldTopic_keys t.topic_name t.subtopics m hnd
      obtain ⟨ha2, hb2⟩ := ih _ ha1
      refine ⟨ha2, ?_⟩
      intro s
      rw [hb2 s, hb1 s, List.flatMap_cons, List.mem_append]
      tauto

/-- The topic mapping's keys are distinct and are exactly the flattened
topic membership. -/
theorem createTopicMapping_keys (topics : List NormalizedTopic) :
    (((createTopicMapping topics).map Prod.fst).Nodup ∧
     ∀ s, s ∈ (createTopicMapping topics).map Prod.fst ↔
        s ∈ topics.flatMap (fun t => t.subtopics)) := by
  obtain ⟨ha, hb⟩ := createTopicMapping_fold_keys topics [] (by simp)
  refine ⟨ha, ?_⟩
  intro s
  rw [createTopicMapping, hb s]
  simp

/-- C1: for every cleaned subtopic list and every full labelling by the
KMeans collaborator, the created topics partition the input — the
flattened `subtopics` lists are a permutation of the cleaned input, every
input subtopic lies in exactly one topic — and the flattened
`topic_mapping` has exactly the cleaned subtopics as its key set. -/
theorem cluster_subtopics_partition (nameF : List String → String)
    (repF : List String → String) (cohesionF : List String → ℚ)
    (raw : List String) (labels : List ℕ)
    (hlen : labels.length = (cleanSubtopics raw).length) :
    (((createNormalizedTopics nameF repF cohesionF
        (clustersOf (cleanSubtopics raw) labels)).flatMap (fun t => t.subtopics)).Perm
      (cleanSubtopics raw)) ∧
    (∀ s ∈ cleanSubtopics raw, ∃! t,
        t ∈ createNormalizedTopics nameF repF cohesionF
          (clustersOf (cleanSubtopics raw) labels) ∧ s ∈ t.subtopics) ∧
    ((createTopicMapping (createNormalizedTopics nameF repF cohesionF
        (clustersOf (cleanSubtopics raw) labels))).map Prod.fst).Nodup ∧
    (∀ s, s ∈ (createTopicMapping (createNormalizedTopics nameF repF cohesionF
        (clustersOf (cleanSubtopics raw) labels))).map Prod.fst ↔
        s ∈ cleanSubtopics raw) := by
  have hzip : ((cleanSubtopics raw).zip labels).map Prod.fst = cleanSubtopics raw :=
    List.map_fst_zip _ _ (le_of_eq hlen.symm)
  have hcount : ∀ s, ((clustersOf (cleanSubtopics raw) labels).flatMap
      (fun c => c.2)).count s = (cleanSubtopics raw).count s := by
    intro s
    have h := (clusterFold_spec s ((cleanSubtopics raw).zip labels) [] (by simp)).2
    rw [clustersOf, h, hzip]
    simp
  have hperm : ((createNormalizedTopics nameF repF cohesionF
      (clustersOf (cleanSubtopics raw) labels)).flatMap (fun t => t.subtopics)).Perm
      (cleanSubtopics raw) := by
    refine List.perm_iff_count.mpr ?_
    intro s
    rw [(createNormalizedTopics_flatMap_perm nameF repF cohesionF
      (clustersOf (cleanSubtopics raw) labels)).count_eq s]
    exact hcount s
  have hnd := cleanSubtopics_nodup raw
  obtain ⟨hknd, hkmem⟩ := createTopicMapping_keys (createNormalizedTopics nameF repF
    cohesionF (clustersOf (cleanSubtopics raw) labels))
  refine ⟨hperm, ?_, hknd, ?_⟩
  · intro s hs
    obtain ⟨t, ht, hst⟩ := List.mem_flatMap.mp (hperm.mem_iff.mpr hs)
    refine ⟨t, ⟨ht, hst⟩, ?_⟩
    rintro t' ⟨ht', hst'⟩
    refine mem_flatMap_unique s _ ?_ t' ht' t ht hst' hst
    rw [hperm.count_eq s]
    exact List.nodup_iff_count_le_one.mp hnd s
  · intro s
    rw [hkmem s, hperm.mem_iff]

/-- Witness for `cluster_subtopics_partition` on three subtopics in two
clusters. -/
theorem cluster_subtopics_partition_witness :
    ((["0", "0", "1"] : List String).length = 3) ∧
    ([0, 0, 1] : List ℕ).length
      = (cleanSubtopics ["Linear Algebra", "Matrix Theory", "Organic Chemistry"]).length ∧
    ((((createNormalizedTopics (fun _ => "Topic") (fun _ => "") (fun _ => 0)
        (clustersOf (cleanSubtopics ["Linear Algebra", "Matrix Theory", "Organic Chemistry"])
          [0, 0, 1])).flatMap (fun t => t.subtopics)).Perm
      (cleanSubtopics ["Linear Algebra", "Matrix Theory", "Organic Chemistry"])) ∧
    (∀ s ∈ cleanSubtopics ["Linear Algebra", "Matrix Theory", "Organic Chemistry"], ∃! t,
        t ∈ createNormalizedTopics (fun _ => "Topic") (fun _ => "") (fun _ => 0)
          (clustersOf (cleanSubtopics ["Linear Algebra", "Matrix Theory", "Organic Chemistry"])
            [0, 0, 1]) ∧ s ∈ t.subtopics) ∧
    ((createTopicMapping (createNormalizedTopics (fun _ => "Topic") (fun _ => "") (fun _ => 0)
        (clustersOf (cleanSubtopics ["Linear Algebra", "Matrix Theory", "Organic Chemistry"])
          [0, 0, 1]))).map Prod.fst).Nodup ∧
    (∀ s, s ∈ (createTopicMapping (createNormalizedTopics (fun _ => "Topic") (fun _ => "")
        (fun _ => 0)
        (clustersOf (cleanSubtopics ["Linear Algebra", "Matrix Theory", "Organic Chemistry"])
          [0, 0, 1]))).map Prod.fst ↔
        s ∈ cleanSubtopics ["Linear Algebra", "Matrix Theory", "Organic Chemistry"])) :=
  ⟨rfl, by decide,
   cluster_subtopics_partition (fun _ => "Topic") (fun _ => "") (fun _ => 0)
     ["Linear Algebra", "Matrix Theory", "Organic Chemistry"] [0, 0, 1] (by decide)⟩
